import Mathlib

/-!
Verification of the live-view reconciliation and navigation engine of `kter`
(`src/kter.py`), a terminal dashboard for browsing Kubernetes pods.

The development shallowly embeds the pure algorithmic content of the source:

* the Kubernetes record types consumed by the table (`V1Pod` and friends),
  mirroring the fields `kter.py` actually reads;
* Python `dict` semantics (insertion order, overwrite-in-place) as association
  lists, since the reconciler keys rows by a `dict`;
* the textual `DataTable` operations used by `PodTable.update_pods`
  (`add_row`, `remove_row`, `update_cell`, `add_column`, `remove_column`,
  `clear`, `sort`, `cursor_row`, `move_cursor`), modelled on an explicit
  table state: `sort` is modelled by the stable `insertionSort` on the
  lexicographic column key (Python's `sorted` is stable, and any two stable
  sorts for the same total preorder agree);
* `PodTable.update_pods` itself, line by line, instrumented with a `Trace`
  recording which rows were cleared / updated in place / deleted / inserted;
* the log filter (`StaticPodLogViewer.update_with_regex` /
  `update_clear_regex`), with Python's `re` module abstracted as an engine
  `ReEngine` (a pattern-validity predicate plus a line-match predicate:
  `re.search` raises `re.error` exactly on patterns that do not compile);
* the namespace-picker and container-picker handlers, as the sequences of
  `dismiss` / `notify` / `pop_screen` effects they perform.

Python exceptions are modelled with `Except`/`Option`: a `none`/`.error`
result marks the program point where the Python code raises.
-/

/-! ## Python dict semantics (association lists, insertion-ordered) -/

/-- A Python `dict` with `String` keys: an insertion-ordered association list.
`dictSet` models `d[k] = v` (overwrite keeps the original position, fresh keys
append at the end), `dictGet?` models `d.get(k)`, `dictRemove` models
`d.pop(k)` discarding the value. -/
abbrev PyDict (α : Type) := List (String × α)

def dictContains : PyDict α → String → Bool
  | [], _ => false
  | kv :: d, k => kv.1 = k || dictContains d k

def dictGet? : PyDict α → String → Option α
  | [], _ => none
  | kv :: d, k => if kv.1 = k then some kv.2 else dictGet? d k

def dictSet (d : PyDict α) (k : String) (v : α) : PyDict α :=
  if dictContains d k then
    d.map (fun kv => if kv.1 = k then (k, v) else kv)
  else d ++ [(k, v)]

def dictRemove : PyDict α → String → PyDict α
  | [], _ => []
  | kv :: d, k => if kv.1 = k then dictRemove d k else kv :: dictRemove d k

def dictKeys (d : PyDict α) : List String :=
  d.map Prod.fst

/-! ## The Kubernetes records read by `kter.py`

Only the fields the source dereferences are modelled
(`pod.metadata.namespace`, `pod.metadata.name`, `pod.status.container_statuses`,
`pod.status.phase`, `c.ready`, `c.state.waiting.reason`, `pod.spec.containers`,
`c.name`). `container_statuses` is `Option`-valued because the Kubernetes API
reports `None` when no container status exists — the case `pod_readiness`
guards for. -/

structure V1ContainerStateWaiting where
  reason : String
deriving Repr, DecidableEq

structure V1ContainerState where
  waiting : Option V1ContainerStateWaiting
deriving Repr, DecidableEq

structure V1ContainerStatus where
  ready : Bool
  state : V1ContainerState
deriving Repr, DecidableEq

structure V1Container where
  name : String
deriving Repr, DecidableEq

structure V1PodSpec where
  containers : List V1Container
deriving Repr, DecidableEq

structure V1PodStatus where
  container_statuses : Option (List V1ContainerStatus)
  phase : String
deriving Repr, DecidableEq

structure V1ObjectMeta where
  name : String
  «namespace» : String
deriving Repr, DecidableEq

structure V1Pod where
  metadata : V1ObjectMeta
  spec : V1PodSpec
  status : V1PodStatus
deriving Repr, DecidableEq

/-- `ApiException` from the Kubernetes client: a transport error carrying a
status code, reason and body (the fields `kter.py` reads when notifying). -/
structure ApiException where
  status : Nat
  reason : String
  body : String
deriving Repr, DecidableEq

/-- A Python exception escaping `update_pods`: either the propagated
`ApiException` of the gateway call, or the `TypeError` raised by
`pod_status` when it iterates `container_statuses = None`. -/
inductive PyError
  | apiException (e : ApiException)
  | typeError
deriving Repr, DecidableEq

/-! ## Readiness and status derivation (`PodTable.pod_readiness` / `pod_status`) -/

/-- `PodTable.pod_readiness` (kter.py:350-355): `"0/0"` when
`container_statuses` is `None`, else `"{ready}/{total}"`. -/
def pod_readiness (pod : V1Pod) : String :=
  match pod.status.container_statuses with
  | none => "0/0"
  | some cs =>
    let container_count := cs.length
    let ready_count := (cs.filter (fun p => p.ready)).length
    toString ready_count ++ "/" ++ toString container_count

/-- Helper for `pod_status`: the `for` loop over the container statuses,
returning the first waiting reason, else the phase. -/
def pod_status_loop : List V1ContainerStatus → String → String
  | [], phase => phase
  | c :: rest, phase =>
    match c.state.waiting with
    | some w => w.reason
    | none => pod_status_loop rest phase

/-- `PodTable.pod_status` (kter.py:357-362). The source iterates
`pod.status.container_statuses` with **no** `None` guard (unlike its sibling
`pod_readiness`): when the field is `None`, `for c in container_statuses`
raises `TypeError`, modelled here as `none`. -/
def pod_status (pod : V1Pod) : Option String :=
  match pod.status.container_statuses with
  | none => none
  | some cs => some (pod_status_loop cs pod.status.phase)

/-- `PodTable.pod_item` (kter.py:364-373): the cell values
`[namespace, name, readiness, status]`, with the namespace popped when
`include_namespace` is false. `none` propagates the `pod_status` crash. -/
def pod_item (pod : V1Pod) (include_namespace : Bool) : Option (List String) :=
  (pod_status pod).map (fun st =>
    let item := [pod.metadata.«namespace», pod.metadata.name, pod_readiness pod, st]
    if include_namespace then item else item.drop 1)

/-- The row key `f"{p.metadata.namespace}.{p.metadata.name}"` (kter.py:308). -/
def pod_row_key (p : V1Pod) : String :=
  p.metadata.«namespace» ++ "." ++ p.metadata.name

/-! ## The table state and the reconciler `PodTable.update_pods` -/

/-- The visible state of the `DataTable` owned by `PodTable`:
column keys in order, rows in display order (each row a key plus its cells as
a column-key-indexed dict, which is how textual stores cell data), the cursor
row index last requested through `move_cursor`, and the
`previously_namespaced` flag of `PodTable`. -/
structure TableState where
  columns : List String
  rows : List (String × PyDict String)
  cursor_row : Nat
  previously_namespaced : Bool
deriving Repr, DecidableEq

/-- The reconciliation trace of one `update_pods` call: whether the
schema-migration `clear()` ran, and the row keys passed to the in-place
`update_cell` pair, to `remove_row`, and to `add_row`, in program order. -/
structure Trace where
  cleared : Bool
  updatedKeys : List String
  deletedKeys : List String
  insertedKeys : List String
deriving Repr, DecidableEq

/-- The local `pod_table_key_list` of `update_pods` (kter.py:286-291). -/
def pod_table_key_list : List String :=
  ["namespace", "name", "ready", "status"]

/-- The empty table `PodTable` starts from (fresh `DataTable`, cursor at the
origin, `previously_namespaced = False` per `__init__`, kter.py:267-270). -/
def initialTableState : TableState :=
  { columns := [], rows := [], cursor_row := 0, previously_namespaced := false }

/-- `DataTable.remove_column` wrapped in `try/except ColumnDoesNotExist`
(kter.py:300-304, 318-321): remove the column key and purge the cell from
every row; a no-op when the column is absent. -/
def removeColumnSchema (st : TableState) (key : String) : TableState :=
  if st.columns.contains key then
    { st with columns := st.columns.erase key,
              rows := st.rows.map (fun r => (r.1, dictRemove r.2 key)) }
  else st

/-- Lines 293-305 of `update_pods`: set `previously_namespaced` on a
namespaced refresh; on an all-namespaces refresh that follows a namespaced
one, `clear()` the rows (textual resets the cursor to the origin) and remove
every known column — the one-time schema migration. Returns the new state and
whether the clear ran. -/
def migrate (st : TableState) (ns : Option String) : TableState × Bool :=
  let st1 := if ns.isSome then { st with previously_namespaced := true } else st
  if ns.isNone && st1.previously_namespaced then
    ({ st1 with rows := [], cursor_row := 0,
                columns := pod_table_key_list.foldl
                  (fun cs k => if cs.contains k then cs.erase k else cs) st1.columns,
                previously_namespaced := false }, true)
  else (st1, false)

/-- The iteration of the `new_rows` dict comprehension over the pod list,
accumulating into the dict built so far. -/
def buildNewRowsGo (include_namespace : Bool) (acc : PyDict (List String)) :
    List V1Pod → Except PyError (PyDict (List String))
  | [] => .ok acc
  | p :: pods =>
    match pod_item p include_namespace with
    | none => .error .typeError
    | some item => buildNewRowsGo include_namespace (dictSet acc (pod_row_key p) item) pods

/-- Lines 307-312: the `new_rows` dict comprehension. Iterates the pods in
order; a pod whose `pod_item` raises (no container statuses) aborts the whole
comprehension with that exception. -/
def buildNewRows (pods : List V1Pod) (include_namespace : Bool) :
    Except PyError (PyDict (List String)) :=
  buildNewRowsGo include_namespace [] pods

/-- Lines 323-328: `for p in pod_table_key_list: add_column(p) if missing`
(new columns are appended on the right). -/
def ensureColumns (cols : List String) (key_list : List String) : List String :=
  key_list.foldl (fun cs p => if cs.contains p then cs else cs ++ [p]) cols

/-- The unpacking `*_, ready, status = new_rows.pop(row.value)` (kter.py:333):
the last two cell values. Python raises `ValueError` for lists shorter than
two; `pod_item` always yields three or four cells, so that branch is
unreachable (kept total with a junk value). -/
def last2 (v : List String) : String × String :=
  match v.reverse with
  | status :: ready :: _ => (ready, status)
  | _ => ("", "")

/-- Lines 334-335: the two `update_cell` calls setting the `ready` and
`status` cells of a surviving row. -/
def updCells (cells : PyDict String) (v : List String) : PyDict String :=
  dictSet (dictSet cells "ready" (last2 v).1) "status" (last2 v).2

/-- Lines 330-343: the reconciliation loop over the current rows. Rows whose
key is in `new_rows` are updated in place (and their key popped from the
working copy); the rest are collected for deletion. Returns
`(remaining new_rows, updated keys, deleted keys, surviving rows)` — the
surviving rows in display order, exactly the table content after the
`remove_row` loop. -/
def reconcileRows (new_rows : PyDict (List String)) :
    List (String × PyDict String) →
    PyDict (List String) × List String × List String × List (String × PyDict String)
  | [] => (new_rows, [], [], [])
  | row :: rest =>
    match dictGet? new_rows row.1 with
    | some v =>
      let res := reconcileRows (dictRemove new_rows row.1) rest
      (res.1, row.1 :: res.2.1, res.2.2.1, (row.1, updCells row.2 v) :: res.2.2.2)
    | none =>
      let res := reconcileRows new_rows rest
      (res.1, res.2.1, row.1 :: res.2.2.1, res.2.2.2)

/-- Python's `<` on strings: lexicographic comparison by code point. -/
def charListLt : List Char → List Char → Bool
  | [], [] => false
  | [], _ :: _ => true
  | _ :: _, [] => false
  | a :: as, b :: bs =>
    if a.toNat < b.toNat then true
    else if b.toNat < a.toNat then false
    else charListLt as bs

/-- Python's `<=` on tuples of strings: lexicographic over the string order. -/
def strListLe : List String → List String → Bool
  | [], _ => true
  | _ :: _, [] => false
  | a :: as, b :: bs =>
    if charListLt a.data b.data then true
    else if charListLt b.data a.data then false
    else strListLe as bs

/-- The sort key of `DataTable.sort(*key_list)`: the tuple of the row's cell
values at the listed columns, compared as Python compares tuples of strings. -/
def sortKey (key_list : List String) (row : String × PyDict String) : List String :=
  key_list.map (fun c => (dictGet? row.2 c).getD "")

/-- The total preorder `DataTable.sort(*key_list)` sorts by. `DataTable.sort`
uses Python's stable `sorted`; `insertionSort` over this preorder is also
stable, and any two stable sorts for the same total preorder coincide. -/
def rowle (key_list : List String) (a b : String × PyDict String) : Prop :=
  strListLe (sortKey key_list a) (sortKey key_list b) = true

instance (key_list : List String) : DecidableRel (rowle key_list) :=
  fun a b =>
    inferInstanceAs (Decidable (strListLe (sortKey key_list a) (sortKey key_list b) = true))

instance {ε α : Type} [DecidableEq ε] [DecidableEq α] : DecidableEq (Except ε α)
  | .error e₁, .error e₂ => decidable_of_iff (e₁ = e₂) (by simp)
  | .error _, .ok _ => isFalse (by simp)
  | .ok _, .error _ => isFalse (by simp)
  | .ok a₁, .ok a₂ => decidable_of_iff (a₁ = a₂) (by simp)

/-- The key list `update_pods` ends up sorting by: `pod_table_key_list` with
the namespace popped when the refresh is namespaced (kter.py:316-317). -/
def canonKeyList (ns : Option String) : List String :=
  if ns.isSome then pod_table_key_list.tail else pod_table_key_list

/-- The table rows after the reconciliation loop, row removal, row insertion
(`add_row` zips the cell values against the current columns) and the final
stable sort (kter.py:330-344). -/
def rows2Of (new_rows : PyDict (List String)) (rows3 : List (String × PyDict String))
    (cols key_list : List String) : List (String × PyDict String) :=
  List.insertionSort (rowle key_list)
    ((reconcileRows new_rows rows3).2.2.2 ++
     (reconcileRows new_rows rows3).1.map (fun kv => (kv.1, cols.zip kv.2)))

/-- The body of `update_pods` after a successful `get_pods` call and a
successful `new_rows` comprehension (kter.py:314-348): pop the namespace from
the key list and drop the namespace column when namespaced, ensure the
columns, run the reconciliation loop, append the net-new rows (cells zipped
against the current columns, as `add_row` does), re-sort by the visible
columns (a stable sort, like Python's), and restore the cursor clamped by
`min(selected, len(rows))`. -/
def reconcileOk (st2 : TableState) (cleared : Bool) (new_rows : PyDict (List String))
    (ns : Option String) : TableState × Trace :=
  let selected := st2.cursor_row
  let key_list := canonKeyList ns
  let st3 := if ns.isSome then removeColumnSchema st2 "namespace" else st2
  let cols := ensureColumns st3.columns key_list
  let res := reconcileRows new_rows st3.rows
  let rows2 := rows2Of new_rows st3.rows cols key_list
  ({ columns := cols, rows := rows2, cursor_row := min selected rows2.length,
     previously_namespaced := st2.previously_namespaced },
   { cleared := cleared, updatedKeys := res.2.1, deletedKeys := res.2.2.1,
     insertedKeys := res.1.map Prod.fst })

/-- `PodTable.update_pods` (kter.py:276-348). The gateway call
`await self.kube.get_pods(namespace=namespace)` is the first statement, so its
result is a parameter; a transport error propagates before any table mutation.
A `TypeError` from `pod_status` inside the `new_rows` comprehension also
propagates — but only after `migrate` already ran, matching source order;
since the migration mutation commutes with nothing observable here, the
`Except` carries no partial state: the error cases record only that the call
raised. -/
def update_pods (st : TableState) (fetch : Except ApiException (List V1Pod))
    (ns : Option String) : Except PyError (TableState × Trace) :=
  match fetch with
  | .error e => .error (.apiException e)
  | .ok pods =>
    let m := migrate st ns
    match buildNewRows pods ns.isNone with
    | .error e => .error e
    | .ok new_rows => .ok (reconcileOk m.1 m.2 new_rows ns)

/-- The application-level state relevant to the poll tick: the selected
namespace scope and the pod table (`KTer.__init__` / `compose`). -/
structure AppState where
  «namespace» : Option String
  pod_table : TableState
deriving Repr, DecidableEq

/-- `KTer._update` (kter.py:417-418), the body of every poll tick registered
by `on_ready` via `set_interval(1, self._update)`: it awaits
`update_pods(namespace=self.namespace)` and installs the resulting table
state. There is **no** `try/except` anywhere on this path, so an exception
from the gateway call escapes the tick uncaught — in particular no
notification is produced. -/
def pollTick (app : AppState) (fetch : Except ApiException (List V1Pod)) :
    Except PyError AppState :=
  match update_pods app.pod_table fetch app.«namespace» with
  | .error e => .error e
  | .ok res => .ok { app with pod_table := res.1 }

/-! ## The log filter (`StaticPodLogViewer`) -/

/-- Model of Python's `re` module as seen by `update_with_regex`: a pattern
either fails to compile (`valid p = false`, in which case every
`re.search(p, line)` call raises `re.error`) or induces a line predicate
(`re.search(p, line) is not None`). The concrete engine is external to the
repository; all filter theorems hold for every engine. -/
structure ReEngine where
  valid : String → Bool
  search : String → String → Bool

/-- A concrete engine instance used for closed evaluations: patterns are
matched as literal substrings, and the pattern `"("` does not compile
(exactly as in Python's `re`). -/
def substrEngine : ReEngine where
  valid := fun p => !(p = "(")
  search := fun p line => decide (List.IsInfix p.data line.data)

/-- The state of `StaticPodLogViewer`: the raw log text `self.log_`, the
stored pattern `self.regex`, and the text last passed to `self.update`
(the displayed content). -/
structure LogState where
  log_ : String
  regex : Option String
  content : String
deriving Repr, DecidableEq

/-- Model of Python `s.split("\n")` at the character level: split on every
newline, keeping empty pieces (so the result is never empty). -/
def splitNlChars : List Char → List Char → List (List Char)
  | [], acc => [acc.reverse]
  | c :: cs, acc =>
    if c = '\n' then acc.reverse :: splitNlChars cs []
    else splitNlChars cs (c :: acc)

/-- Model of Python `"\n".join(lines)` at the character level. -/
def joinNlChars : List (List Char) → List Char
  | [] => []
  | [l] => l
  | l :: ls => l ++ '\n' :: joinNlChars ls

/-- Python `s.split("\n")`. -/
def pySplitNl (s : String) : List String :=
  (splitNlChars s.data []).map String.mk

/-- Python `"\n".join(lines)`. -/
def pyJoinNl (lines : List String) : String :=
  String.mk (joinNlChars (lines.map String.data))

/-- The pure filtering computation of `update_with_regex` (kter.py:159-162):
keep the lines of `rawText` matched by `pattern` and rejoin them. This is the
`applyFilter(rawText, pattern) → displayText` contract of the specification. -/
def applyFilter (E : ReEngine) (rawText pattern : String) : String :=
  pyJoinNl ((pySplitNl rawText).filter (E.search pattern))

/-- `StaticPodLogViewer.update_with_regex` (kter.py:157-162). `self.regex` is
assigned **before** the list comprehension runs. The comprehension calls
`re.search(regex, line)` on each line of `self.log_.split("\n")` — a list that
is never empty — so an invalid pattern raises `re.error` out of the method:
the `.error` case carries the state as the exception leaves it (pattern stored,
displayed content untouched). -/
def update_with_regex (E : ReEngine) (st : LogState) (regex : String) :
    Except LogState LogState :=
  let st1 := { st with regex := some regex }
  if E.valid regex then
    .ok { st1 with content := applyFilter E st.log_ regex }
  else
    .error st1

/-- `StaticPodLogViewer.update_clear_regex` (kter.py:164-166): drop the
pattern and re-display the raw text. -/
def update_clear_regex (st : LogState) : LogState :=
  { st with regex := none, content := st.log_ }

/-! ## The namespace picker and the container picker -/

/-- `NamespaceSelectScreen.ALL_NAMESPACES_IDENTIFIER` (kter.py:61). -/
def ALL_NAMESPACES_IDENTIFIER : String := "all"

/-- `NamespaceSelectScreen.on_option_list_option_selected` (kter.py:72-76),
as the sequence of `self.dismiss(...)` calls it makes, in order. The `if`
branch for the all-namespaces option has no `return` and no `else`, so after
`self.dismiss(None)` control falls through to the unconditional
`self.dismiss(prompt)`. -/
def namespaceSelectDismissCalls (prompt : String) : List (Option String) :=
  if prompt = ALL_NAMESPACES_IDENTIFIER then
    [none, some prompt]
  else
    [some prompt]

/-- What `PodLogContainerSelectScreen.compose` does after the `try/except`
around the pod lookup (kter.py:250-259). -/
inductive ComposeOutcome
  | raisedUnboundLocal
  | autoDismissed
  | optionList (containers : List String)
deriving Repr, DecidableEq

/-- The observable effects of one `PodLogContainerSelectScreen.compose` run:
the `app.notify` calls, whether `app.pop_screen` ran, and how the method
ended. -/
structure ComposeEffects where
  notifications : List ApiException
  poppedScreen : Bool
  outcome : ComposeOutcome
deriving Repr, DecidableEq

/-- `PodLogContainerSelectScreen.compose` (kter.py:250-259). On an
`ApiException` the handler notifies and pops the screen, but the `except`
block neither returns nor re-raises: control falls through to
`if len(pod.spec.containers) == 1` with the local `pod` unbound, raising
`UnboundLocalError` (`ComposeOutcome.raisedUnboundLocal`). On success, a
single-container pod auto-dismisses with no result; otherwise the container
names are listed. -/
def containerSelectCompose (fetch : Except ApiException V1Pod) : ComposeEffects :=
  match fetch with
  | .error e =>
    { notifications := [e], poppedScreen := true, outcome := .raisedUnboundLocal }
  | .ok pod =>
    if pod.spec.containers.length = 1 then
      { notifications := [], poppedScreen := false, outcome := .autoDismissed }
    else
      { notifications := [], poppedScreen := false,
        outcome := .optionList (pod.spec.containers.map (fun c => c.name)) }


/-! ## Dictionary lemmas -/

theorem dictContains_cons (kv : String × α) (d : PyDict α) (k : String) :
    dictContains (kv :: d) k = ((kv.1 = k : Bool) || dictContains d k) := rfl

theorem dictGet?_cons (kv : String × α) (d : PyDict α) (k : String) :
    dictGet? (kv :: d) k = if kv.1 = k then some kv.2 else dictGet? d k := rfl

theorem dictContains_eq_true_iff (d : PyDict α) (k : String) :
    dictContains d k = true ↔ k ∈ dictKeys d := by
  induction d with
  | nil => simp [dictContains, dictKeys]
  | cons kv d ih =>
    simp only [dictContains, dictKeys, List.map_cons, List.mem_cons,
      Bool.or_eq_true, decide_eq_true_eq]
    constructor
    · rintro (h | h)
      · exact Or.inl h.symm
      · exact Or.inr (by simpa [dictKeys] using ih.mp h)
    · rintro (h | h)
      · exact Or.inl h.symm
      · exact Or.inr (ih.mpr (by simpa [dictKeys] using h))

theorem dictGet?_eq_none_of_not_contains {d : PyDict α} {k : String}
    (h : dictContains d k = false) : dictGet? d k = none := by
  induction d with
  | nil => rfl
  | cons kv d ih =>
    simp only [dictContains, Bool.or_eq_false_iff, decide_eq_false_iff_not] at h
    simp only [dictGet?, if_neg h.1]
    exact ih h.2

theorem dictContains_true_of_get {d : PyDict α} {k : String} {v : α}
    (h : dictGet? d k = some v) : dictContains d k = true := by
  cases hc : dictContains d k with
  | false => rw [dictGet?_eq_none_of_not_contains hc] at h; cases h
  | true => rfl

theorem mem_of_dictGet? {d : PyDict α} {k : String} {v : α}
    (h : dictGet? d k = some v) : (k, v) ∈ d := by
  induction d with
  | nil => cases h
  | cons kv d ih =>
    simp only [dictGet?] at h
    by_cases hk : kv.1 = k
    · rw [if_pos hk] at h
      cases h
      exact List.mem_cons.mpr (Or.inl (by cases kv; simp only at hk; rw [hk]))
    · rw [if_neg hk] at h
      exact List.mem_cons_of_mem _ (ih h)

theorem dictGet?_of_mem_nodup {d : PyDict α} {k : String} {v : α}
    (hnd : (dictKeys d).Nodup) (h : (k, v) ∈ d) : dictGet? d k = some v := by
  induction d with
  | nil => simp at h
  | cons kv d ih =>
    simp only [dictKeys, List.map_cons, List.nodup_cons] at hnd
    rcases List.mem_cons.mp h with h | h
    · simp [dictGet?, ← h]
    · have hk : kv.1 ≠ k := by
        intro he
        exact hnd.1 (he ▸ (List.mem_map_of_mem Prod.fst h))
      simp only [dictGet?, if_neg hk]
      exact ih hnd.2 h

theorem dictGet?_dictRemove_ne {d : PyDict α} {k k' : String} (h : k' ≠ k) :
    dictGet? (dictRemove d k) k' = dictGet? d k' := by
  induction d with
  | nil => rfl
  | cons kv d ih =>
    by_cases hk : kv.1 = k
    · have hne : kv.1 ≠ k' := fun he => h (he ▸ hk)
      simp only [dictRemove, if_pos hk, dictGet?, if_neg hne]
      exact ih
    · simp only [dictRemove, if_neg hk, dictGet?]
      by_cases hk' : kv.1 = k'
      · rw [if_pos hk', if_pos hk']
      · rw [if_neg hk', if_neg hk']
        exact ih

theorem dictContains_dictRemove_ne {d : PyDict α} {k k' : String} (h : k' ≠ k) :
    dictContains (dictRemove d k) k' = dictContains d k' := by
  induction d with
  | nil => rfl
  | cons kv d ih =>
    by_cases hk : kv.1 = k
    · have hne : kv.1 ≠ k' := fun he => h (he ▸ hk)
      simp only [dictRemove, if_pos hk, dictContains, ih,
        decide_eq_false hne, Bool.false_or]
    · simp only [dictRemove, if_neg hk, dictContains, ih]

theorem dictGet?_dictSet_self (d : PyDict α) (k : String) (v : α) :
    dictGet? (dictSet d k v) k = some v := by
  unfold dictSet
  by_cases hc : dictContains d k = true
  · rw [if_pos hc]
    induction d with
    | nil => cases hc
    | cons kv d ih =>
      by_cases hk : kv.1 = k
      · simp [dictGet?, hk]
      · simp only [dictContains, decide_eq_true_eq, Bool.or_eq_true] at hc
        rcases hc with hc | hc
        · exact absurd hc hk
        · simp only [List.map_cons, if_neg hk, dictGet?, if_neg hk]
          exact ih hc
  · rw [if_neg hc]
    rw [Bool.not_eq_true] at hc
    induction d with
    | nil => simp [dictGet?]
    | cons kv d ih =>
      simp only [dictContains, Bool.or_eq_false_iff, decide_eq_false_iff_not] at hc
      simp only [List.cons_append, dictGet?, if_neg hc.1]
      exact ih (by simp [hc.2])

theorem dictGet?_dictSet_ne {d : PyDict α} {k k' : String} (v : α) (h : k' ≠ k) :
    dictGet? (dictSet d k v) k' = dictGet? d k' := by
  have hmap : ∀ d' : PyDict α,
      dictGet? (d'.map (fun kv => if kv.1 = k then (k, v) else kv)) k' = dictGet? d' k' := by
    intro d'
    induction d' with
    | nil => rfl
    | cons kv d' ih =>
      by_cases hk : kv.1 = k
      · have hne : k ≠ k' := fun he => h he.symm
        simp only [List.map_cons, if_pos hk, dictGet?, if_neg hne,
          if_neg (hk ▸ hne : ¬ kv.1 = k')]
        exact ih
      · simp only [List.map_cons, if_neg hk, dictGet?]
        by_cases hk' : kv.1 = k'
        · rw [if_pos hk', if_pos hk']
        · rw [if_neg hk', if_neg hk']
          exact ih
  have happ : dictGet? (d ++ [(k, v)]) k' = dictGet? d k' := by
    induction d with
    | nil =>
      have hne : ¬ k = k' := fun he => h he.symm
      simp [dictGet?, hne]
    | cons kv d ih =>
      simp only [List.cons_append, dictGet?]
      by_cases hk' : kv.1 = k'
      · rw [if_pos hk', if_pos hk']
      · rw [if_neg hk', if_neg hk']
        exact ih
  unfold dictSet
  by_cases hc : dictContains d k = true
  · rw [if_pos hc]; exact hmap d
  · rw [if_neg hc]; exact happ

theorem mem_dictSet {d : PyDict α} {k : String} {v : α} {kv : String × α}
    (h : kv ∈ dictSet d k v) : kv ∈ d ∨ kv = (k, v) := by
  unfold dictSet at h
  by_cases hc : dictContains d k = true
  · rw [if_pos hc] at h
    rcases List.mem_map.mp h with ⟨kv', hmem, heq⟩
    by_cases hk : kv'.1 = k
    · rw [if_pos hk] at heq
      right
      exact heq.symm
    · rw [if_neg hk] at heq
      left
      exact heq ▸ hmem
  · rw [if_neg hc] at h
    rcases List.mem_append.mp h with h | h
    · left; exact h
    · right; simpa using h

theorem dictKeys_dictSet (d : PyDict α) (k : String) (v : α) :
    dictKeys (dictSet d k v) =
      if dictContains d k then dictKeys d else dictKeys d ++ [k] := by
  unfold dictSet
  by_cases hc : dictContains d k = true
  · rw [if_pos hc, if_pos hc]
    simp only [dictKeys, List.map_map]
    apply List.map_congr_left
    intro kv _
    by_cases hk : kv.1 = k
    · simp [hk]
    · simp [hk]
  · rw [if_neg hc, if_neg hc]
    simp [dictKeys]

theorem mem_dictSet_key_val {d : PyDict α} {k : String} {v : α} {kv : String × α}
    (h : kv ∈ dictSet d k v) (hk : kv.1 = k) : kv.2 = v := by
  unfold dictSet at h
  by_cases hc : dictContains d k = true
  · rw [if_pos hc] at h
    rcases List.mem_map.mp h with ⟨kv', _, heq⟩
    by_cases hk' : kv'.1 = k
    · rw [if_pos hk'] at heq
      rw [← heq]
    · rw [if_neg hk'] at heq
      exact absurd (heq ▸ hk) hk'
  · rw [if_neg hc] at h
    rcases List.mem_append.mp h with h | h
    · exfalso
      have : dictContains d k = true :=
        (dictContains_eq_true_iff d k).mpr (hk ▸ List.mem_map_of_mem Prod.fst h)
      exact hc this
    · simp only [List.mem_singleton] at h
      rw [h]

theorem dictSet_eq_self {d : PyDict α} {k : String} {v : α}
    (hall : ∀ kv ∈ d, kv.1 = k → kv.2 = v) (hc : dictContains d k = true) :
    dictSet d k v = d := by
  unfold dictSet
  rw [if_pos hc]
  conv_rhs => rw [← List.map_id d]
  apply List.map_congr_left
  intro kv hmem
  by_cases hk : kv.1 = k
  · have hv := hall kv hmem hk
    rw [if_pos hk, id_eq]
    cases kv
    simp only at hk hv
    rw [hk, hv]
  · simp [hk]

theorem mem_dictSet_key_val_all {d : PyDict α} {k : String} {v : α}
    {kv : String × α} (h : kv ∈ dictSet d k v) (hk : kv.1 = k) : kv = (k, v) := by
  have h2 := mem_dictSet_key_val h hk
  cases kv
  simp only at hk h2
  rw [hk, h2]

/-! ## Order lemmas for the sort relation -/

theorem charListLt_irrefl : ∀ x : List Char, charListLt x x = false
  | [] => rfl
  | _ :: as => by simp [charListLt, charListLt_irrefl as]

theorem char_eq_of_toNat_eq {a b : Char} (h : a.toNat = b.toNat) : a = b :=
  Char.ext (UInt32.ext h)

theorem charListLt_eq_of_not {x y : List Char}
    (hxy : charListLt x y = false) (hyx : charListLt y x = false) : x = y := by
  induction x generalizing y with
  | nil => cases y with
    | nil => rfl
    | cons b bs => simp [charListLt] at hxy
  | cons a as ih =>
    cases y with
    | nil => simp [charListLt] at hyx
    | cons b bs =>
      simp only [charListLt] at hxy hyx
      by_cases h1 : a.toNat < b.toNat
      · rw [if_pos h1] at hxy; cases hxy
      · by_cases h2 : b.toNat < a.toNat
        · rw [if_pos h2] at hyx; cases hyx
        · rw [if_neg h1, if_neg h2] at hxy
          rw [if_neg h2, if_neg h1] at hyx
          have : a = b := char_eq_of_toNat_eq (by omega)
          rw [this, ih hxy hyx]

theorem charListLt_trans {x y z : List Char}
    (hxy : charListLt x y = true) (hyz : charListLt y z = true) :
    charListLt x z = true := by
  induction x generalizing y z with
  | nil =>
    cases y with
    | nil => cases hxy
    | cons b bs =>
      cases z with
      | nil => cases hyz
      | cons c cs => rfl
  | cons a as ih =>
    cases y with
    | nil => cases hxy
    | cons b bs =>
      cases z with
      | nil => cases hyz
      | cons c cs =>
        simp only [charListLt] at hxy hyz ⊢
        by_cases h1 : a.toNat < b.toNat
        · by_cases h2 : b.toNat < c.toNat
          · rw [if_pos (by omega)]
          · rw [if_neg h2] at hyz
            by_cases h3 : c.toNat < b.toNat
            · rw [if_pos h3] at hyz; cases hyz
            · rw [if_pos (by omega)]
        · rw [if_neg h1] at hxy
          by_cases h1' : b.toNat < a.toNat
          · rw [if_pos h1'] at hxy; cases hxy
          · rw [if_neg h1'] at hxy
            by_cases h2 : b.toNat < c.toNat
            · rw [if_pos (by omega)]
            · rw [if_neg h2] at hyz
              by_cases h3 : c.toNat < b.toNat
              · rw [if_pos h3] at hyz; cases hyz
              · rw [if_neg h3] at hyz
                rw [if_neg (by omega), if_neg (by omega)]
                exact ih hxy hyz

theorem strListLe_total : ∀ x y : List String, strListLe x y = true ∨ strListLe y x = true
  | [], _ => Or.inl rfl
  | _ :: _, [] => Or.inr rfl
  | a :: as, b :: bs => by
    simp only [strListLe]
    by_cases h1 : charListLt a.data b.data = true
    · left; rw [if_pos h1]
    · by_cases h2 : charListLt b.data a.data = true
      · right; rw [if_pos h2]
      · rw [Bool.not_eq_true] at h1 h2
        have he : a = b := String.ext (charListLt_eq_of_not h1 h2)
        rw [if_neg (by simp [h1]), if_neg (by simp [h2]),
            if_neg (by simp [h2]), if_neg (by simp [h1])]
        exact strListLe_total as bs

theorem strListLe_trans : ∀ {x y z : List String},
    strListLe x y = true → strListLe y z = true → strListLe x z = true
  | [], _, _, _, _ => rfl
  | a :: as, [], z, hxy, _ => by cases hxy
  | a :: as, b :: bs, [], _, hyz => by cases hyz
  | a :: as, b :: bs, c :: cs, hxy, hyz => by
    simp only [strListLe] at hxy hyz ⊢
    by_cases h1 : charListLt a.data b.data = true
    · by_cases h2 : charListLt b.data c.data = true
      · rw [if_pos (charListLt_trans h1 h2)]
      · rw [if_neg h2] at hyz
        by_cases h3 : charListLt c.data b.data = true
        · rw [if_pos h3] at hyz; cases hyz
        · rw [Bool.not_eq_true] at h2 h3
          have hbc : b = c := String.ext (charListLt_eq_of_not h2 h3)
          rw [← hbc, if_pos h1]
    · rw [if_neg h1] at hxy
      by_cases h1' : charListLt b.data a.data = true
      · rw [if_pos h1'] at hxy; cases hxy
      · rw [if_neg h1'] at hxy
        rw [Bool.not_eq_true] at h1 h1'
        have hab : a = b := String.ext (charListLt_eq_of_not h1 h1')
        subst hab
        by_cases h2 : charListLt a.data c.data = true
        · rw [if_pos h2]
        · rw [if_neg h2] at hyz ⊢
          by_cases h3 : charListLt c.data a.data = true
          · rw [if_pos h3] at hyz; cases hyz
          · rw [if_neg h3] at hyz ⊢
            exact strListLe_trans hxy hyz

instance (kl : List String) : IsTotal (String × PyDict String) (rowle kl) :=
  ⟨fun a b => strListLe_total (sortKey kl a) (sortKey kl b)⟩

instance (kl : List String) : IsTrans (String × PyDict String) (rowle kl) :=
  ⟨fun _ _ _ h1 h2 => strListLe_trans h1 h2⟩

/-! ## Characterizing the reconciliation loop -/

theorem dictGet?_isSome_of_contains {d : PyDict α} {k : String}
    (h : dictContains d k = true) : ∃ v, dictGet? d k = some v := by
  induction d with
  | nil => cases h
  | cons kv d ih =>
    simp only [dictContains, Bool.or_eq_true, decide_eq_true_eq] at h
    by_cases hk : kv.1 = k
    · exact ⟨kv.2, by simp [dictGet?, hk]⟩
    · rcases h with h | h
      · exact absurd h hk
      · rcases ih h with ⟨v, hv⟩
        exact ⟨v, by simp [dictGet?, hk, hv]⟩

theorem dictContains_false_of_get_none {d : PyDict α} {k : String}
    (h : dictGet? d k = none) : dictContains d k = false := by
  cases hc : dictContains d k with
  | false => rfl
  | true =>
    rcases dictGet?_isSome_of_contains hc with ⟨v, hv⟩
    rw [h] at hv
    cases hv

theorem dictRemove_eq_filter (d : PyDict α) (k : String) :
    dictRemove d k = d.filter (fun kv => !(decide (kv.1 = k))) := by
  induction d with
  | nil => rfl
  | cons kv d ih =>
    by_cases hk : kv.1 = k
    · simp [dictRemove, hk, List.filter_cons, ih]
    · simp [dictRemove, hk, List.filter_cons, ih]

theorem filterMap_congr_mem {l : List α} {f g : α → Option β}
    (h : ∀ a ∈ l, f a = g a) : l.filterMap f = l.filterMap g := by
  induction l with
  | nil => rfl
  | cons a l ih =>
    rw [List.filterMap_cons, List.filterMap_cons, h a (List.mem_cons_self a l),
        ih (fun a ha => h a (List.mem_cons_of_mem _ ha))]

theorem filterMap_eq_self {l : List α} {f : α → Option α}
    (h : ∀ a ∈ l, f a = some a) : l.filterMap f = l := by
  induction l with
  | nil => rfl
  | cons a l ih =>
    rw [List.filterMap_cons, h a (List.mem_cons_self a l),
        ih (fun a ha => h a (List.mem_cons_of_mem _ ha))]

/-- The reconciliation loop, characterized in closed form when the current
row keys are distinct (textual's `DataTable` guarantees distinct row keys):
the remaining dict keeps exactly the net-new identities, the updated keys are
the surviving identities, the deleted keys the vanished ones, and the
surviving rows get exactly their `ready`/`status` cells overwritten. -/
theorem reconcileRows_spec (d : PyDict (List String))
    (rows : List (String × PyDict String))
    (hnd : (rows.map Prod.fst).Nodup) :
    reconcileRows d rows =
      (d.filter (fun kv => !(decide (kv.1 ∈ rows.map Prod.fst))),
       (rows.map Prod.fst).filter (fun k => dictContains d k),
       (rows.map Prod.fst).filter (fun k => !(dictContains d k)),
       rows.filterMap (fun r => (dictGet? d r.1).map (fun v => (r.1, updCells r.2 v)))) := by
  induction rows generalizing d with
  | nil => simp [reconcileRows]
  | cons r rest ih =>
    rw [List.map_cons, List.nodup_cons] at hnd
    obtain ⟨hr, hnd'⟩ := hnd
    have hne : ∀ k ∈ rest.map Prod.fst, k ≠ r.1 := by
      intro k hk he
      exact hr (he ▸ hk)
    cases hg : dictGet? d r.1 with
    | some v =>
      have hc : dictContains d r.1 = true := dictContains_true_of_get hg
      simp only [reconcileRows, hg]
      rw [ih (dictRemove d r.1) hnd']
      simp only [Prod.mk.injEq]
      refine ⟨?_, ?_, ?_, ?_⟩
      · rw [dictRemove_eq_filter, List.filter_filter]
        apply List.filter_congr
        intro kv _
        by_cases h1 : kv.1 = r.1 <;> by_cases h2 : kv.1 ∈ rest.map Prod.fst <;>
          simp [h1, h2]
      · rw [List.map_cons, List.filter_cons, if_pos hc]
        congr 1
        apply List.filter_congr
        intro k hk
        exact dictContains_dictRemove_ne (hne k hk)
      · have hcongr : (rest.map Prod.fst).filter (fun k => !dictContains (dictRemove d r.1) k)
            = (rest.map Prod.fst).filter (fun k => !dictContains d k) := by
          apply List.filter_congr
          intro k hk
          rw [dictContains_dictRemove_ne (hne k hk)]
        rw [hcongr, List.map_cons, List.filter_cons]
        have hcond : ¬ ((fun k => !dictContains d k) r.1 = true) := by simp [hc]
        rw [if_neg hcond]
      · have hcons : (r :: rest).filterMap
              (fun r0 => (dictGet? d r0.1).map (fun v0 => (r0.1, updCells r0.2 v0)))
            = (r.1, updCells r.2 v) :: rest.filterMap
              (fun r0 => (dictGet? d r0.1).map (fun v0 => (r0.1, updCells r0.2 v0))) := by
          rw [List.filterMap_cons, hg]
          rfl
        rw [hcons]
        congr 1
        apply filterMap_congr_mem
        intro r' hr'
        rw [dictGet?_dictRemove_ne (hne r'.1 (List.mem_map_of_mem Prod.fst hr'))]
    | none =>
      have hc : dictContains d r.1 = false := dictContains_false_of_get_none hg
      have hkeys : ∀ kv ∈ d, (kv.1 : String) ≠ r.1 := by
        intro kv hkv he
        have : dictContains d r.1 = true :=
          (dictContains_eq_true_iff d r.1).mpr (he ▸ List.mem_map_of_mem Prod.fst hkv)
        rw [hc] at this
        cases this
      simp only [reconcileRows, hg]
      rw [ih d hnd']
      simp only [Prod.mk.injEq]
      refine ⟨?_, ?_, ?_, ?_⟩
      · apply List.filter_congr
        intro kv hkv
        by_cases h2 : kv.1 ∈ rest.map Prod.fst <;>
          simp [h2, hkeys kv hkv]
      · rw [List.map_cons, List.filter_cons]
        have hcond : ¬ ((fun k => dictContains d k) r.1 = true) := by simp [hc]
        rw [if_neg hcond]
      · rw [List.map_cons, List.filter_cons]
        have hcond : ((fun k => !dictContains d k) r.1 = true) := by simp [hc]
        rw [if_pos hcond]
      · have hcons : (r :: rest).filterMap
              (fun r0 => (dictGet? d r0.1).map (fun v0 => (r0.1, updCells r0.2 v0)))
            = rest.filterMap
              (fun r0 => (dictGet? d r0.1).map (fun v0 => (r0.1, updCells r0.2 v0))) := by
          rw [List.filterMap_cons, hg]
          rfl
        rw [hcons]

/-! ## Shape of the rows built from pods -/

/-- The shape of a `pod_item` cell list: four cells in all-namespaces mode,
three in namespaced mode. -/
def cellShape (b : Bool) (v : List String) : Prop :=
  if b then ∃ a₁ a₂ a₃ a₄, v = [a₁, a₂, a₃, a₄] else ∃ a₂ a₃ a₄, v = [a₂, a₃, a₄]

theorem pod_item_shape {p : V1Pod} {b : Bool} {item : List String}
    (h : pod_item p b = some item) : cellShape b item := by
  unfold pod_item at h
  cases hs : pod_status p with
  | none => rw [hs] at h; cases h
  | some s =>
    rw [hs] at h
    simp only [Option.map_some', Option.some.injEq] at h
    cases b with
    | true =>
      simp only [if_pos trivial] at h
      exact ⟨_, _, _, _, h.symm⟩
    | false =>
      simp only [Bool.false_eq_true, if_false, List.drop_one, List.tail_cons] at h
      exact ⟨_, _, _, h.symm⟩

theorem buildNewRowsGo_inv {b : Bool} {pods : List V1Pod} {acc NR : PyDict (List String)}
    (h : buildNewRowsGo b acc pods = .ok NR)
    (hnd : (dictKeys acc).Nodup) (hsh : ∀ kv ∈ acc, cellShape b kv.2) :
    (dictKeys NR).Nodup ∧ ∀ kv ∈ NR, cellShape b kv.2 := by
  induction pods generalizing acc with
  | nil =>
    simp only [buildNewRowsGo] at h
    cases h
    exact ⟨hnd, hsh⟩
  | cons p pods ih =>
    simp only [buildNewRowsGo] at h
    cases hi : pod_item p b with
    | none => rw [hi] at h; cases h
    | some item =>
      rw [hi] at h
      apply ih h
      · rw [dictKeys_dictSet]
        by_cases hc : dictContains acc (pod_row_key p) = true
        · rw [if_pos hc]; exact hnd
        · rw [if_neg hc]
          have : pod_row_key p ∉ dictKeys acc := by
            intro hmem
            exact hc ((dictContains_eq_true_iff acc (pod_row_key p)).mpr hmem)
          simp [List.nodup_append, hnd, this]
      · intro kv hkv
        rcases mem_dictSet hkv with hkv | hkv
        · exact hsh kv hkv
        · rw [hkv]
          exact pod_item_shape hi

theorem buildNewRows_inv {b : Bool} {pods : List V1Pod} {NR : PyDict (List String)}
    (h : buildNewRows pods b = .ok NR) :
    (dictKeys NR).Nodup ∧ ∀ kv ∈ NR, cellShape b kv.2 :=
  buildNewRowsGo_inv h (by simp [dictKeys]) (by simp)

/-! ## Cell-update lemmas -/

theorem dictGet?_updCells_ready (c : PyDict String) (v : List String) :
    dictGet? (updCells c v) "ready" = some (last2 v).1 := by
  unfold updCells
  rw [dictGet?_dictSet_ne _ (by decide), dictGet?_dictSet_self]

theorem dictGet?_updCells_status (c : PyDict String) (v : List String) :
    dictGet? (updCells c v) "status" = some (last2 v).2 :=
  dictGet?_dictSet_self _ _ _

theorem dictGet?_updCells_other {c' : String} (c : PyDict String) (v : List String)
    (h1 : c' ≠ "ready") (h2 : c' ≠ "status") :
    dictGet? (updCells c v) c' = dictGet? c c' := by
  unfold updCells
  rw [dictGet?_dictSet_ne _ h2, dictGet?_dictSet_ne _ h1]

theorem updCells_idem (c : PyDict String) (v : List String) :
    updCells (updCells c v) v = updCells c v := by
  have h1 : dictSet (updCells c v) "ready" (last2 v).1 = updCells c v := by
    apply dictSet_eq_self
    · intro kv hkv hk
      rcases mem_dictSet hkv with hkv | hkv
      · exact mem_dictSet_key_val hkv hk
      · rw [hkv] at hk
        simp at hk
    · exact dictContains_true_of_get (dictGet?_updCells_ready c v)
  show dictSet (dictSet (updCells c v) "ready" (last2 v).1) "status" (last2 v).2
      = updCells c v
  rw [h1]
  apply dictSet_eq_self
  · intro kv hkv hk
    exact mem_dictSet_key_val hkv hk
  · exact dictContains_true_of_get (dictGet?_updCells_status c v)

theorem updCells_zip4 (a₁ a₂ a₃ a₄ : String) :
    updCells (pod_table_key_list.zip [a₁, a₂, a₃, a₄]) [a₁, a₂, a₃, a₄]
      = pod_table_key_list.zip [a₁, a₂, a₃, a₄] := rfl

theorem updCells_zip3 (a₂ a₃ a₄ : String) :
    updCells (pod_table_key_list.tail.zip [a₂, a₃, a₄]) [a₂, a₃, a₄]
      = pod_table_key_list.tail.zip [a₂, a₃, a₄] := rfl

/-! ## Key bookkeeping lemmas -/

theorem dictKeys_filter_key (d : PyDict α) (p : String → Bool) :
    dictKeys (d.filter (fun kv => p kv.1)) = (dictKeys d).filter p := by
  induction d with
  | nil => rfl
  | cons kv d ih =>
    simp only [List.filter_cons, dictKeys, List.map_cons]
    by_cases hp : p kv.1 = true
    · rw [if_pos hp, if_pos hp]
      simp only [dictKeys, List.map_cons] at ih ⊢
      rw [ih]
    · rw [if_neg hp, if_neg hp]
      exact ih

theorem keys_reconcile_out (d : PyDict (List String)) (rows : List (String × PyDict String)) :
    (rows.filterMap (fun r => (dictGet? d r.1).map (fun v => (r.1, updCells r.2 v)))).map
        Prod.fst
      = (rows.map Prod.fst).filter (fun k => dictContains d k) := by
  induction rows with
  | nil => rfl
  | cons r rest ih =>
    cases hg : dictGet? d r.1 with
    | some v =>
      have hcons : (r :: rest).filterMap
            (fun r0 => (dictGet? d r0.1).map (fun v0 => (r0.1, updCells r0.2 v0)))
          = (r.1, updCells r.2 v) :: rest.filterMap
            (fun r0 => (dictGet? d r0.1).map (fun v0 => (r0.1, updCells r0.2 v0))) := by
        rw [List.filterMap_cons, hg]
        rfl
      rw [hcons, List.map_cons, List.map_cons, List.filter_cons]
      have hcond : ((fun k => dictContains d k) r.1 = true) := dictContains_true_of_get hg
      rw [if_pos hcond, ih]
    | none =>
      have hcons : (r :: rest).filterMap
            (fun r0 => (dictGet? d r0.1).map (fun v0 => (r0.1, updCells r0.2 v0)))
          = rest.filterMap
            (fun r0 => (dictGet? d r0.1).map (fun v0 => (r0.1, updCells r0.2 v0))) := by
        rw [List.filterMap_cons, hg]
        rfl
      rw [hcons, List.map_cons, List.filter_cons]
      have hcond : ¬ ((fun k => dictContains d k) r.1 = true) := by
        simp [dictContains_false_of_get_none hg]
      rw [if_neg hcond, ih]

/-! ## Structure of the reconciled rows -/

theorem keys_map_snd (rows : List (String × PyDict String)) (f : PyDict String → PyDict String) :
    ((rows.map (fun r => (r.1, f r.2))).map Prod.fst) = rows.map Prod.fst := by
  induction rows with
  | nil => rfl
  | cons r rest ih => simp only [List.map_cons, ih]

/-- Structure of the row list produced by the loop + insert + sort sequence:
distinct keys, every snapshot identity present, every row saturated (its
`ready`/`status` cells already hold the snapshot values), and sortedness. -/
theorem rows2Of_struct (NR : PyDict (List String)) (rows3 : List (String × PyDict String))
    (cols key_list : List String)
    (hnd3 : (rows3.map Prod.fst).Nodup) (hndNR : (dictKeys NR).Nodup)
    (hsat : ∀ kv ∈ NR, updCells (cols.zip kv.2) kv.2 = cols.zip kv.2) :
    ((rows2Of NR rows3 cols key_list).map Prod.fst).Nodup ∧
    (∀ kv ∈ NR, kv.1 ∈ (rows2Of NR rows3 cols key_list).map Prod.fst) ∧
    (∀ r ∈ rows2Of NR rows3 cols key_list,
      ∃ v, dictGet? NR r.1 = some v ∧ updCells r.2 v = r.2) ∧
    List.Sorted (rowle key_list) (rows2Of NR rows3 cols key_list) := by
  have hspec := reconcileRows_spec NR rows3 hnd3
  have hperm : List.Perm (rows2Of NR rows3 cols key_list)
      ((reconcileRows NR rows3).2.2.2 ++
       (reconcileRows NR rows3).1.map (fun kv => (kv.1, cols.zip kv.2))) :=
    List.perm_insertionSort _ _
  have hpermk := hperm.map Prod.fst
  have hkeys1 : (((reconcileRows NR rows3).2.2.2 ++
      (reconcileRows NR rows3).1.map (fun kv => (kv.1, cols.zip kv.2))).map Prod.fst) =
      (rows3.map Prod.fst).filter (fun k => dictContains NR k) ++
      (dictKeys NR).filter (fun k => !(decide (k ∈ rows3.map Prod.fst))) := by
    rw [hspec]
    simp only [List.map_append]
    rw [keys_reconcile_out]
    congr 1
    rw [List.map_map]
    have hcomp : (Prod.fst ∘ fun kv : String × List String => (kv.1, cols.zip kv.2))
        = Prod.fst := by
      funext kv
      rfl
    rw [hcomp]
    show dictKeys (NR.filter (fun kv => !(decide (kv.1 ∈ rows3.map Prod.fst))))
        = (dictKeys NR).filter (fun k => !(decide (k ∈ rows3.map Prod.fst)))
    exact dictKeys_filter_key NR (fun k => !(decide (k ∈ rows3.map Prod.fst)))
  constructor
  · rw [hpermk.nodup_iff, hkeys1]
    apply (hnd3.filter _).append ((hndNR.filter _))
    intro k hk1 hk2
    rcases List.mem_filter.mp hk1 with ⟨hmem, _⟩
    rcases List.mem_filter.mp hk2 with ⟨_, hpred⟩
    simp only [Bool.not_eq_true', decide_eq_false_iff_not] at hpred
    exact hpred hmem
  constructor
  · intro kv hkv
    rw [hpermk.mem_iff, hkeys1]
    by_cases hmem : kv.1 ∈ rows3.map Prod.fst
    · apply List.mem_append_left
      apply List.mem_filter.mpr
      refine ⟨hmem, ?_⟩
      exact (dictContains_eq_true_iff NR kv.1).mpr (List.mem_map_of_mem Prod.fst hkv)
    · apply List.mem_append_right
      apply List.mem_filter.mpr
      refine ⟨List.mem_map_of_mem Prod.fst hkv, by simp [hmem]⟩
  constructor
  · intro r hr
    rw [hperm.mem_iff] at hr
    rcases List.mem_append.mp hr with hr | hr
    · rw [hspec] at hr
      rcases List.mem_filterMap.mp hr with ⟨row, _, heq⟩
      cases hg : dictGet? NR row.1 with
      | none => rw [hg] at heq; cases heq
      | some v =>
        rw [hg] at heq
        simp only [Option.map_some', Option.some.injEq] at heq
        refine ⟨v, ?_, ?_⟩
        · rw [← heq]
          exact hg
        · rw [← heq]
          exact updCells_idem row.2 v
    · rw [hspec] at hr
      rcases List.mem_map.mp hr with ⟨kv, hkvf, heq⟩
      have hkvNR : kv ∈ NR := List.mem_of_mem_filter hkvf
      refine ⟨kv.2, ?_, ?_⟩
      · rw [← heq]
        exact dictGet?_of_mem_nodup hndNR (by rw [← Prod.mk.eta (p := kv)] at hkvNR; exact hkvNR)
      · rw [← heq]
        exact hsat kv hkvNR
  · exact List.sorted_insertionSort (rowle key_list) _

/-! ## Reachable table states and the structure of a reconciliation result -/

/-- The invariant tying `previously_namespaced` to the declared columns, plus
distinctness of row keys (row keys of a textual `DataTable` are dict keys,
hence distinct). It holds for the initial state and is re-established by
every `update_pods` call; every state the widget can actually reach
satisfies it. -/
def Wf (st : TableState) : Prop :=
  ((st.previously_namespaced = false ∧
      (st.columns = [] ∨ st.columns = pod_table_key_list)) ∨
   (st.previously_namespaced = true ∧ st.columns = pod_table_key_list.tail)) ∧
  (st.rows.map Prod.fst).Nodup

instance (st : TableState) : Decidable (Wf st) := by
  unfold Wf
  infer_instance

/-- The fields of a successful reconciliation body, given the post-schema
facts: canonical columns, the flag carried over, the reconciled-row structure
of `rows2Of_struct`, and the cursor clamped within `0..row_count`. -/
theorem reconcileOk_struct (st2 : TableState) (cleared : Bool)
    (NR : PyDict (List String)) (ns : Option String)
    (hnd3 : (((if ns.isSome then removeColumnSchema st2 "namespace" else st2)).rows.map
      Prod.fst).Nodup)
    (hcols : ensureColumns
        ((if ns.isSome then removeColumnSchema st2 "namespace" else st2)).columns
        (canonKeyList ns) = canonKeyList ns)
    (hndNR : (dictKeys NR).Nodup)
    (hsat : ∀ kv ∈ NR,
      updCells ((canonKeyList ns).zip kv.2) kv.2 = (canonKeyList ns).zip kv.2) :
    (reconcileOk st2 cleared NR ns).1.columns = canonKeyList ns ∧
    (reconcileOk st2 cleared NR ns).1.previously_namespaced = st2.previously_namespaced ∧
    (((reconcileOk st2 cleared NR ns).1.rows.map Prod.fst).Nodup ∧
     (∀ kv ∈ NR, kv.1 ∈ (reconcileOk st2 cleared NR ns).1.rows.map Prod.fst) ∧
     (∀ r ∈ (reconcileOk st2 cleared NR ns).1.rows,
       ∃ v, dictGet? NR r.1 = some v ∧ updCells r.2 v = r.2) ∧
     List.Sorted (rowle (canonKeyList ns)) (reconcileOk st2 cleared NR ns).1.rows) ∧
    (reconcileOk st2 cleared NR ns).1.cursor_row ≤
      (reconcileOk st2 cleared NR ns).1.rows.length := by
  simp only [reconcileOk]
  rw [hcols]
  refine ⟨rfl, trivial, ?_, ?_⟩
  · exact rows2Of_struct NR _ (canonKeyList ns) (canonKeyList ns) hnd3 hndNR hsat
  · exact inf_le_right

theorem keys_removeCells (rows : List (String × PyDict String)) (key : String) :
    ((rows.map (fun r => (r.1, dictRemove r.2 key))).map Prod.fst) = rows.map Prod.fst := by
  induction rows with
  | nil => rfl
  | cons r rest ih => simp only [List.map_cons, ih]

/-- Structure of every successful `update_pods` call from a reachable state:
the resulting columns are the canonical schema for the scope, the
`previously_namespaced` flag records the scope, the rows have distinct keys,
carry exactly the snapshot identities (every snapshot key appears), are each
saturated with the snapshot's `ready`/`status` values, are sorted by the
visible columns, and the cursor is clamped within `0..row_count`. -/
theorem update_pods_ok_struct {st : TableState} {pods : List V1Pod} {ns : Option String}
    {st' : TableState} {tr : Trace}
    (hWf : Wf st) (h : update_pods st (.ok pods) ns = .ok (st', tr)) :
    ∃ NR, buildNewRows pods ns.isNone = .ok NR ∧
      st'.columns = canonKeyList ns ∧
      st'.previously_namespaced = ns.isSome ∧
      ((st'.rows.map Prod.fst).Nodup ∧
       (∀ kv ∈ NR, kv.1 ∈ st'.rows.map Prod.fst) ∧
       (∀ r ∈ st'.rows, ∃ v, dictGet? NR r.1 = some v ∧ updCells r.2 v = r.2) ∧
       List.Sorted (rowle (canonKeyList ns)) st'.rows) ∧
      st'.cursor_row ≤ st'.rows.length := by
  obtain ⟨hWfc, hndrows⟩ := hWf
  simp only [update_pods] at h
  cases hb : buildNewRows pods ns.isNone with
  | error e => rw [hb] at h; cases h
  | ok NR =>
    rw [hb] at h
    simp only [Except.ok.injEq] at h
    obtain ⟨hnd_NR, hshape⟩ := buildNewRows_inv hb
    refine ⟨NR, rfl, ?_⟩
    cases ns with
    | none =>
      have hshape4 : ∀ kv ∈ NR, ∃ a₁ a₂ a₃ a₄, kv.2 = [a₁, a₂, a₃, a₄] := hshape
      have hsat : ∀ kv ∈ NR,
          updCells ((canonKeyList none).zip kv.2) kv.2 = (canonKeyList none).zip kv.2 := by
        intro kv hkv
        obtain ⟨a₁, a₂, a₃, a₄, he⟩ := hshape4 kv hkv
        rw [he]
        exact updCells_zip4 a₁ a₂ a₃ a₄
      have hif : ∀ u : TableState,
          (if (none : Option String).isSome = true then removeColumnSchema u "namespace"
           else u) = u := by
        intro u
        simp
      rcases hWfc with ⟨hp, hc⟩ | ⟨hp, hc⟩
      · have hm : migrate st none = (st, false) := by
          simp [migrate, hp]
        have hm1 : (migrate st none).1 = st := by rw [hm]
        have hm2 : (migrate st none).2 = false := by rw [hm]
        rw [hm1, hm2] at h
        have hcols : ensureColumns
            ((if (none : Option String).isSome = true then removeColumnSchema st "namespace"
              else st)).columns (canonKeyList none) = canonKeyList none := by
          rw [hif]
          rcases hc with hc | hc <;> rw [hc] <;> rfl
        have hnd3 : ((((if (none : Option String).isSome = true then
            removeColumnSchema st "namespace" else st)).rows.map Prod.fst)).Nodup := by
          rw [hif]
          exact hndrows
        have hB := reconcileOk_struct st false NR none hnd3 hcols hnd_NR hsat
        have hst : (reconcileOk st false NR none).1 = st' := congrArg Prod.fst h
        rw [hst] at hB
        refine ⟨hB.1, ?_, hB.2.2.1, hB.2.2.2⟩
        rw [hB.2.1, hp]
        rfl
      · have hm : migrate st none =
            ((⟨[], [], 0, false⟩ : TableState), true) := by
          simp [migrate, hp, hc]
          decide
        have hm1 : (migrate st none).1 = (⟨[], [], 0, false⟩ : TableState) := by rw [hm]
        have hm2 : (migrate st none).2 = true := by rw [hm]
        rw [hm1, hm2] at h
        have hcols : ensureColumns
            ((if (none : Option String).isSome = true then
              removeColumnSchema (⟨[], [], 0, false⟩ : TableState) "namespace"
              else (⟨[], [], 0, false⟩ : TableState))).columns
            (canonKeyList none) = canonKeyList none := by
          rw [hif]
          rfl
        have hnd3 : ((((if (none : Option String).isSome = true then
            removeColumnSchema (⟨[], [], 0, false⟩ : TableState) "namespace"
            else (⟨[], [], 0, false⟩ : TableState))).rows.map Prod.fst)).Nodup := by
          rw [hif]
          exact List.nodup_nil
        have hB := reconcileOk_struct _ true NR none hnd3 hcols hnd_NR hsat
        have hst : (reconcileOk (⟨[], [], 0, false⟩ : TableState) true NR none).1 = st' :=
          congrArg Prod.fst h
        rw [hst] at hB
        exact ⟨hB.1, by rw [hB.2.1]; rfl, hB.2.2.1, hB.2.2.2⟩
    | some s =>
      have hshape3 : ∀ kv ∈ NR, ∃ a₂ a₃ a₄, kv.2 = [a₂, a₃, a₄] := hshape
      have hsat : ∀ kv ∈ NR,
          updCells ((canonKeyList (some s)).zip kv.2) kv.2
            = (canonKeyList (some s)).zip kv.2 := by
        intro kv hkv
        obtain ⟨a₂, a₃, a₄, he⟩ := hshape3 kv hkv
        rw [he]
        exact updCells_zip3 a₂ a₃ a₄
      have hm : migrate st (some s) =
          ({ st with previously_namespaced := true }, false) := by
        simp [migrate]
      have hm1 : (migrate st (some s)).1 = { st with previously_namespaced := true } := by
        rw [hm]
      have hm2 : (migrate st (some s)).2 = false := by rw [hm]
      rw [hm1, hm2] at h
      have hif : ∀ u : TableState,
          (if (some s).isSome = true then removeColumnSchema u "namespace" else u)
            = removeColumnSchema u "namespace" := by
        intro u
        simp
      have hprev2 : ({ st with previously_namespaced := true } : TableState).columns
          = st.columns := rfl
      rcases hWfc with ⟨hp, hc | hc⟩ | ⟨hp, hc⟩
      · have hrc : removeColumnSchema { st with previously_namespaced := true } "namespace"
            = { st with previously_namespaced := true } := by
          unfold removeColumnSchema
          rw [if_neg]
          rw [hprev2, hc]
          decide
        have hcols : ensureColumns
            ((if (some s).isSome = true then
              removeColumnSchema { st with previously_namespaced := true } "namespace"
              else { st with previously_namespaced := true })).columns
            (canonKeyList (some s)) = canonKeyList (some s) := by
          rw [hif, hrc, hprev2, hc]
          rfl
        have hnd3 : ((((if (some s).isSome = true then
            removeColumnSchema { st with previously_namespaced := true } "namespace"
            else { st with previously_namespaced := true })).rows.map Prod.fst)).Nodup := by
          rw [hif, hrc]
          exact hndrows
        have hB := reconcileOk_struct _ false NR (some s) hnd3 hcols hnd_NR hsat
        have hst : (reconcileOk { st with previously_namespaced := true } false NR
            (some s)).1 = st' := congrArg Prod.fst h
        rw [hst] at hB
        exact ⟨hB.1, by rw [hB.2.1]; rfl, hB.2.2.1, hB.2.2.2⟩
      · have hrc : removeColumnSchema { st with previously_namespaced := true } "namespace"
            = ⟨pod_table_key_list.tail,
               st.rows.map (fun r => (r.1, dictRemove r.2 "namespace")),
               st.cursor_row, true⟩ := by
          unfold removeColumnSchema
          rw [if_pos]
          · rw [hprev2, hc]
            rfl
          · rw [hprev2, hc]
            decide
        have hcols : ensureColumns
            ((if (some s).isSome = true then
              removeColumnSchema { st with previously_namespaced := true } "namespace"
              else { st with previously_namespaced := true })).columns
            (canonKeyList (some s)) = canonKeyList (some s) := by
          rw [hif, hrc]
          rfl
        have hnd3 : ((((if (some s).isSome = true then
            removeColumnSchema { st with previously_namespaced := true } "namespace"
            else { st with previously_namespaced := true })).rows.map Prod.fst)).Nodup := by
          rw [hif, hrc]
          show ((st.rows.map (fun r => (r.1, dictRemove r.2 "namespace"))).map Prod.fst).Nodup
          rw [keys_removeCells]
          exact hndrows
        have hB := reconcileOk_struct _ false NR (some s) hnd3 hcols hnd_NR hsat
        have hst : (reconcileOk { st with previously_namespaced := true } false NR
            (some s)).1 = st' := congrArg Prod.fst h
        rw [hst] at hB
        exact ⟨hB.1, by rw [hB.2.1]; rfl, hB.2.2.1, hB.2.2.2⟩
      · have hrc : removeColumnSchema { st with previously_namespaced := true } "namespace"
            = { st with previously_namespaced := true } := by
          unfold removeColumnSchema
          rw [if_neg]
          rw [hprev2, hc]
          decide
        have hcols : ensureColumns
            ((if (some s).isSome = true then
              removeColumnSchema { st with previously_namespaced := true } "namespace"
              else { st with previously_namespaced := true })).columns
            (canonKeyList (some s)) = canonKeyList (some s) := by
          rw [hif, hrc, hprev2, hc]
          rfl
        have hnd3 : ((((if (some s).isSome = true then
            removeColumnSchema { st with previously_namespaced := true } "namespace"
            else { st with previously_namespaced := true })).rows.map Prod.fst)).Nodup := by
          rw [hif, hrc]
          exact hndrows
        have hB := reconcileOk_struct _ false NR (some s) hnd3 hcols hnd_NR hsat
        have hst : (reconcileOk { st with previously_namespaced := true } false NR
            (some s)).1 = st' := congrArg Prod.fst h
        rw [hst] at hB
        exact ⟨hB.1, by rw [hB.2.1]; rfl, hB.2.2.1, hB.2.2.2⟩

/-! ## Idempotence of reconciliation -/

theorem tableState_ext {a b : TableState} (h1 : a.columns = b.columns)
    (h2 : a.rows = b.rows) (h3 : a.cursor_row = b.cursor_row)
    (h4 : a.previously_namespaced = b.previously_namespaced) : a = b := by
  cases a
  cases b
  congr 1

/-- Reconciling rows that are already saturated with the snapshot values is a
no-op: nothing is inserted or deleted, the updates write back the values the
cells already hold, and the stable sort fixes the already-sorted list. -/
theorem rows2Of_saturated (NR : PyDict (List String))
    (rows : List (String × PyDict String)) (cols kl : List String)
    (hnd : (rows.map Prod.fst).Nodup)
    (hmem : ∀ kv ∈ NR, kv.1 ∈ rows.map Prod.fst)
    (hsat : ∀ r ∈ rows, ∃ v, dictGet? NR r.1 = some v ∧ updCells r.2 v = r.2)
    (hsort : List.Sorted (rowle kl) rows) :
    rows2Of NR rows cols kl = rows := by
  have hrem : NR.filter (fun kv => !(decide (kv.1 ∈ rows.map Prod.fst))) = [] := by
    apply List.filter_eq_nil_iff.mpr
    intro kv hkv
    simp [hmem kv hkv]
  have hout : rows.filterMap
      (fun r => (dictGet? NR r.1).map (fun v => (r.1, updCells r.2 v))) = rows := by
    apply filterMap_eq_self
    intro r hr
    obtain ⟨v, hv, hu⟩ := hsat r hr
    rw [hv]
    simp only [Option.map_some', Option.some.injEq]
    rw [hu]
  unfold rows2Of
  simp only [reconcileRows_spec NR rows hnd]
  rw [hrem, hout]
  simp only [List.map_nil, List.append_nil]
  exact hsort.insertionSort_eq

/-- C3: Reconciliation is idempotent. For every reachable table state and
every snapshot, reconciling a second time with the same snapshot and the same
namespace scope returns the table state of the first reconciliation
unchanged — same row content, same row order, same cursor position. -/
theorem update_pods_idempotent {st : TableState} {pods : List V1Pod} {ns : Option String}
    {st' : TableState} {tr : Trace}
    (hWf : Wf st) (h : update_pods st (.ok pods) ns = .ok (st', tr)) :
    ∃ tr2, update_pods st' (.ok pods) ns = .ok (st', tr2) := by
  obtain ⟨NR, hb, hcols, hprev, ⟨hnd, hmem, hsat, hsort⟩, hcur⟩ := update_pods_ok_struct hWf h
  have hrows2 : ∀ cols, rows2Of NR st'.rows cols (canonKeyList ns) = st'.rows :=
    fun cols => rows2Of_saturated NR st'.rows cols (canonKeyList ns) hnd hmem hsat hsort
  cases ns with
  | none =>
    have hprev' : st'.previously_namespaced = false := by simpa using hprev
    have hm1 : (migrate st' none).1 = st' := by simp [migrate, hprev']
    have hm2 : (migrate st' none).2 = false := by simp [migrate, hprev']
    have hifn : (if (none : Option String).isSome = true then
        removeColumnSchema st' "namespace" else st') = st' := by simp
    have hfst : (reconcileOk st' false NR none).1 = st' := by
      simp only [reconcileOk, hifn]
      apply tableState_ext
      · show ensureColumns st'.columns (canonKeyList none) = st'.columns
        rw [hcols]
        rfl
      · show rows2Of NR st'.rows (ensureColumns st'.columns (canonKeyList none))
            (canonKeyList none) = st'.rows
        exact hrows2 _
      · show min st'.cursor_row (rows2Of NR st'.rows
            (ensureColumns st'.columns (canonKeyList none)) (canonKeyList none)).length
            = st'.cursor_row
        rw [hrows2 _]
        exact min_eq_left hcur
      · rfl
    refine ⟨(reconcileOk st' false NR none).2, ?_⟩
    simp only [update_pods, hb]
    rw [hm1, hm2]
    exact congrArg Except.ok (Prod.ext hfst rfl)
  | some s =>
    have hprev' : st'.previously_namespaced = true := by simpa using hprev
    have hsp : ({ st' with previously_namespaced := true } : TableState) = st' := by
      cases st'
      simp only at hprev'
      rw [hprev']
    have hm1 : (migrate st' (some s)).1 = st' := by simp [migrate, hsp]
    have hm2 : (migrate st' (some s)).2 = false := by simp [migrate]
    have hckl : canonKeyList (some s) = pod_table_key_list.tail := rfl
    have hrc : removeColumnSchema st' "namespace" = st' := by
      unfold removeColumnSchema
      rw [if_neg]
      rw [hcols, hckl]
      decide
    have hifs : (if (some s).isSome = true then
        removeColumnSchema st' "namespace" else st') = st' := by
      simp [hrc]
    have hfst : (reconcileOk st' false NR (some s)).1 = st' := by
      simp only [reconcileOk, hifs]
      apply tableState_ext
      · show ensureColumns st'.columns (canonKeyList (some s)) = st'.columns
        rw [hcols]
        rfl
      · show rows2Of NR st'.rows (ensureColumns st'.columns (canonKeyList (some s)))
            (canonKeyList (some s)) = st'.rows
        exact hrows2 _
      · show min st'.cursor_row (rows2Of NR st'.rows
            (ensureColumns st'.columns (canonKeyList (some s))) (canonKeyList (some s))).length
            = st'.cursor_row
        rw [hrows2 _]
        exact min_eq_left hcur
      · rfl
    refine ⟨(reconcileOk st' false NR (some s)).2, ?_⟩
    simp only [update_pods, hb]
    rw [hm1, hm2]
    exact congrArg Except.ok (Prod.ext hfst rfl)

/-! ## The in-place diff: trace and cell preservation -/

/-- The reconciliation loop over rows whose cells may first have lost their
namespace cell (`f` is either the identity or the namespace-cell removal):
the trace lists exactly the surviving / vanished / net-new keys, and every
surviving row reappears with its `ready`/`status` cells set to the snapshot
values and every other cell untouched. -/
theorem reconcile_in_place (NR : PyDict (List String))
    (rows : List (String × PyDict String)) (f : PyDict String → PyDict String)
    (cols kl : List String)
    (hnd : (rows.map Prod.fst).Nodup)
    (hf : ∀ cells c, c ≠ "namespace" → dictGet? (f cells) c = dictGet? cells c) :
    (reconcileRows NR (rows.map (fun r => (r.1, f r.2)))).2.1
      = (rows.map Prod.fst).filter (fun k => dictContains NR k) ∧
    (reconcileRows NR (rows.map (fun r => (r.1, f r.2)))).2.2.1
      = (rows.map Prod.fst).filter (fun k => !(dictContains NR k)) ∧
    (reconcileRows NR (rows.map (fun r => (r.1, f r.2)))).1.map Prod.fst
      = (dictKeys NR).filter (fun k => !(decide (k ∈ rows.map Prod.fst))) ∧
    ∀ r ∈ rows, ∀ v, dictGet? NR r.1 = some v →
      ∃ cells, (r.1, cells) ∈ rows2Of NR (rows.map (fun r => (r.1, f r.2))) cols kl ∧
        dictGet? cells "ready" = some (last2 v).1 ∧
        dictGet? cells "status" = some (last2 v).2 ∧
        ∀ c, c ≠ "ready" → c ≠ "status" → c ≠ "namespace" →
          dictGet? cells c = dictGet? r.2 c := by
  have hkeys3 : ((rows.map (fun r => (r.1, f r.2))).map Prod.fst) = rows.map Prod.fst :=
    keys_map_snd rows f
  have hnd3 : (((rows.map (fun r => (r.1, f r.2))).map Prod.fst)).Nodup := by
    rw [hkeys3]
    exact hnd
  have hspec := reconcileRows_spec NR (rows.map (fun r => (r.1, f r.2))) hnd3
  refine ⟨?_, ?_, ?_, ?_⟩
  · rw [hspec]
    rw [hkeys3]
  · rw [hspec]
    rw [hkeys3]
  · rw [hspec]
    rw [hkeys3]
    show dictKeys (NR.filter (fun kv => !(decide (kv.1 ∈ rows.map Prod.fst))))
        = (dictKeys NR).filter (fun k => !(decide (k ∈ rows.map Prod.fst)))
    exact dictKeys_filter_key NR (fun k => !(decide (k ∈ rows.map Prod.fst)))
  · intro r hr v hv
    refine ⟨updCells (f r.2) v, ?_, ?_, ?_, ?_⟩
    · unfold rows2Of
      rw [List.mem_insertionSort]
      apply List.mem_append_left
      rw [hspec]
      apply List.mem_filterMap.mpr
      refine ⟨(r.1, f r.2), List.mem_map_of_mem _ hr, ?_⟩
      rw [hv]
      rfl
    · exact dictGet?_updCells_ready _ _
    · exact dictGet?_updCells_status _ _
    · intro c hc1 hc2 hc3
      rw [dictGet?_updCells_other _ _ hc1 hc2]
      exact hf r.2 c hc3

/-- C2 (amended): In every reconciliation that does not flip the
namespace-column visibility (no schema migration), nothing is cleared;
the rows updated in place are exactly the identities present in both the
table and the snapshot; the rows deleted are exactly the identities absent
from the snapshot; the rows inserted are exactly the net-new identities;
and every surviving identity keeps its row, with only its `ready`/`status`
cells rewritten (and, on entering a namespaced scope, the namespace cell
dropped): every other cell is untouched. -/
theorem update_pods_in_place_diff {st : TableState} {pods : List V1Pod}
    {ns : Option String} {st' : TableState} {tr : Trace}
    (hmig : ¬(ns = none ∧ st.previously_namespaced = true))
    (hnd : (st.rows.map Prod.fst).Nodup)
    (h : update_pods st (.ok pods) ns = .ok (st', tr)) :
    ∃ NR, buildNewRows pods ns.isNone = .ok NR ∧
      tr.cleared = false ∧
      tr.updatedKeys = (st.rows.map Prod.fst).filter (fun k => dictContains NR k) ∧
      tr.deletedKeys = (st.rows.map Prod.fst).filter (fun k => !(dictContains NR k)) ∧
      tr.insertedKeys
        = (dictKeys NR).filter (fun k => !(decide (k ∈ st.rows.map Prod.fst))) ∧
      ∀ r ∈ st.rows, ∀ v, dictGet? NR r.1 = some v →
        ∃ cells, (r.1, cells) ∈ st'.rows ∧
          dictGet? cells "ready" = some (last2 v).1 ∧
          dictGet? cells "status" = some (last2 v).2 ∧
          ∀ c, c ≠ "ready" → c ≠ "status" → c ≠ "namespace" →
            dictGet? cells c = dictGet? r.2 c := by
  simp only [update_pods] at h
  cases hb : buildNewRows pods ns.isNone with
  | error e => rw [hb] at h; cases h
  | ok NR =>
    rw [hb] at h
    simp only [Except.ok.injEq] at h
    refine ⟨NR, rfl, ?_⟩
    cases ns with
    | none =>
      have hp : st.previously_namespaced = false := by
        cases hpv : st.previously_namespaced with
        | false => rfl
        | true => exact absurd ⟨rfl, hpv⟩ hmig
      have hm : migrate st none = (st, false) := by simp [migrate, hp]
      have hm1 : (migrate st none).1 = st := by rw [hm]
      have hm2 : (migrate st none).2 = false := by rw [hm]
      rw [hm1, hm2] at h
      have hifn : (if (none : Option String).isSome = true then
          removeColumnSchema st "namespace" else st) = st := by simp
      simp only [reconcileOk, hifn] at h
      rw [Prod.mk.injEq] at h
      obtain ⟨h1, h2⟩ := h
      have hmapid : st.rows.map (fun r => (r.1, (fun cs : PyDict String => cs) r.2))
          = st.rows := by simp
      have hrip := reconcile_in_place NR st.rows (fun cs => cs)
        (ensureColumns st.columns (canonKeyList none)) (canonKeyList none) hnd
        (fun _ _ _ => rfl)
      rw [hmapid] at hrip
      refine ⟨by rw [← h2], by rw [← h2]; exact hrip.1, by rw [← h2]; exact hrip.2.1,
        by rw [← h2]; exact hrip.2.2.1, ?_⟩
      intro r hr v hv
      obtain ⟨cells, hmem, hready, hstatus, hother⟩ := hrip.2.2.2 r hr v hv
      refine ⟨cells, ?_, hready, hstatus, hother⟩
      rw [← h1]
      exact hmem
    | some s =>
      have hm : migrate st (some s) =
          ({ st with previously_namespaced := true }, false) := by simp [migrate]
      have hm1 : (migrate st (some s)).1 = { st with previously_namespaced := true } := by
        rw [hm]
      have hm2 : (migrate st (some s)).2 = false := by rw [hm]
      rw [hm1, hm2] at h
      have hifs : (if (some s).isSome = true then
          removeColumnSchema { st with previously_namespaced := true } "namespace"
          else { st with previously_namespaced := true })
          = removeColumnSchema { st with previously_namespaced := true } "namespace" := by
        simp
      simp only [reconcileOk, hifs] at h
      by_cases hcc : ({ st with previously_namespaced := true } :
          TableState).columns.contains "namespace" = true
      · have hrc : removeColumnSchema { st with previously_namespaced := true } "namespace"
            = ⟨st.columns.erase "namespace",
               st.rows.map (fun r => (r.1, dictRemove r.2 "namespace")),
               st.cursor_row, true⟩ := by
          unfold removeColumnSchema
          rw [if_pos hcc]
        rw [hrc] at h
        rw [Prod.mk.injEq] at h
        obtain ⟨h1, h2⟩ := h
        have hrip := reconcile_in_place NR st.rows (fun cs => dictRemove cs "namespace")
          (ensureColumns (st.columns.erase "namespace") (canonKeyList (some s)))
          (canonKeyList (some s)) hnd
          (fun cells c hc => dictGet?_dictRemove_ne hc)
        refine ⟨by rw [← h2], by rw [← h2]; exact hrip.1, by rw [← h2]; exact hrip.2.1,
          by rw [← h2]; exact hrip.2.2.1, ?_⟩
        intro r hr v hv
        obtain ⟨cells, hmem, hready, hstatus, hother⟩ := hrip.2.2.2 r hr v hv
        refine ⟨cells, ?_, hready, hstatus, hother⟩
        rw [← h1]
        exact hmem
      · have hrc : removeColumnSchema { st with previously_namespaced := true } "namespace"
            = { st with previously_namespaced := true } := by
          unfold removeColumnSchema
          rw [if_neg hcc]
        rw [hrc] at h
        rw [Prod.mk.injEq] at h
        obtain ⟨h1, h2⟩ := h
        have hmapid : st.rows.map (fun r => (r.1, (fun cs : PyDict String => cs) r.2))
            = st.rows := by simp
        have hrip := reconcile_in_place NR st.rows (fun cs => cs)
          (ensureColumns st.columns (canonKeyList (some s))) (canonKeyList (some s)) hnd
          (fun _ _ _ => rfl)
        rw [hmapid] at hrip
        refine ⟨by rw [← h2], by rw [← h2]; exact hrip.1, by rw [← h2]; exact hrip.2.1,
          by rw [← h2]; exact hrip.2.2.1, ?_⟩
        intro r hr v hv
        obtain ⟨cells, hmem, hready, hstatus, hother⟩ := hrip.2.2.2 r hr v hv
        refine ⟨cells, ?_, hready, hstatus, hother⟩
        rw [← h1]
        exact hmem

/-! ## Split/join round-trip for the log filter -/

theorem splitNlChars_no_sep (l : List Char) (acc : List Char) (h : '\n' ∉ l) :
    splitNlChars l acc = [acc.reverse ++ l] := by
  induction l generalizing acc with
  | nil => simp [splitNlChars]
  | cons c cs ih =>
    have hc : c ≠ '\n' := fun he => h (he ▸ List.mem_cons_self c cs)
    have hcs : '\n' ∉ cs := fun hm => h (List.mem_cons_of_mem _ hm)
    simp only [splitNlChars, if_neg hc]
    rw [ih (c :: acc) hcs]
    simp

theorem splitNlChars_sep (l rest acc : List Char) (h : '\n' ∉ l) :
    splitNlChars (l ++ '\n' :: rest) acc = (acc.reverse ++ l) :: splitNlChars rest [] := by
  induction l generalizing acc with
  | nil => simp [splitNlChars]
  | cons c cs ih =>
    have hc : c ≠ '\n' := fun he => h (he ▸ List.mem_cons_self c cs)
    have hcs : '\n' ∉ cs := fun hm => h (List.mem_cons_of_mem _ hm)
    simp only [List.cons_append, splitNlChars, if_neg hc]
    show splitNlChars (cs ++ '\n' :: rest) (c :: acc)
        = (acc.reverse ++ c :: cs) :: splitNlChars rest []
    rw [ih (c :: acc) hcs]
    simp

theorem splitNlChars_no_nl (cs : List Char) :
    ∀ acc, '\n' ∉ acc → ∀ p ∈ splitNlChars cs acc, '\n' ∉ p := by
  induction cs with
  | nil =>
    intro acc hacc p hp
    simp only [splitNlChars, List.mem_singleton] at hp
    rw [hp]
    simpa using hacc
  | cons c cs ih =>
    intro acc hacc p hp
    by_cases hc : c = '\n'
    · rw [hc] at hp
      simp only [splitNlChars, if_pos rfl] at hp
      rcases List.mem_cons.mp hp with hp | hp
      · rw [hp]
        simpa using hacc
      · exact ih [] (by simp) p hp
    · simp only [splitNlChars, if_neg hc] at hp
      refine ih (c :: acc) ?_ p hp
      intro hm
      rcases List.mem_cons.mp hm with hm | hm
      · exact hc hm.symm
      · exact hacc hm

theorem splitNl_joinNl : ∀ (L : List (List Char)), L ≠ [] → (∀ l ∈ L, '\n' ∉ l) →
    splitNlChars (joinNlChars L) [] = L
  | [], h, _ => absurd rfl h
  | [l], _, h => by
    simp only [joinNlChars]
    rw [splitNlChars_no_sep l [] (h l (List.mem_cons_self _ _))]
    simp
  | l :: l2 :: ls, _, h => by
    simp only [joinNlChars]
    rw [splitNlChars_sep l (joinNlChars (l2 :: ls)) [] (h l (List.mem_cons_self _ _))]
    rw [splitNl_joinNl (l2 :: ls) (by simp) (fun x hx => h x (List.mem_cons_of_mem _ hx))]
    simp

theorem mem_pySplitNl_no_nl (s : String) : ∀ l ∈ pySplitNl s, '\n' ∉ l.data := by
  intro l hl
  unfold pySplitNl at hl
  rcases List.mem_map.mp hl with ⟨p, hp, he⟩
  rw [← he]
  exact splitNlChars_no_nl s.data [] (by simp) p hp

theorem pySplitNl_pyJoinNl (L : List String) (hne : L ≠ [])
    (h : ∀ l ∈ L, '\n' ∉ l.data) : pySplitNl (pyJoinNl L) = L := by
  unfold pySplitNl pyJoinNl
  have hd : (String.mk (joinNlChars (L.map String.data))).data
      = joinNlChars (L.map String.data) := rfl
  rw [hd]
  rw [splitNl_joinNl (L.map String.data) (by simpa using hne)
    (by intro l hl; rcases List.mem_map.mp hl with ⟨s, hs, he⟩; rw [← he]; exact h s hs)]
  rw [List.map_map]
  conv_rhs => rw [← List.map_id L]
  apply List.map_congr_left
  intro s _
  show String.mk s.data = s
  cases s
  rfl

/-- The filtering computation of the log viewer is idempotent. -/
theorem applyFilter_idem (E : ReEngine) (t p : String) :
    applyFilter E (applyFilter E t p) p = applyFilter E t p := by
  unfold applyFilter
  cases hk : (pySplitNl t).filter (E.search p) with
  | nil =>
    have h2 : pySplitNl (pyJoinNl []) = [""] := rfl
    rw [h2]
    have h3 : ([""] : List String).filter (E.search p)
        = if E.search p "" then [""] else [] := by
      rw [List.filter_cons]
      simp
    rw [h3]
    cases hS : E.search p "" with
    | false => rw [if_neg (by simp [hS])]
    | true => rw [if_pos (by simp [hS])]; rfl
  | cons a as =>
    have hnonl : ∀ l ∈ a :: as, '\n' ∉ l.data := by
      intro l hl
      have : l ∈ (pySplitNl t).filter (E.search p) := by rw [hk]; exact hl
      exact mem_pySplitNl_no_nl t l (List.mem_of_mem_filter this)
    rw [pySplitNl_pyJoinNl (a :: as) (by simp) hnonl]
    congr 1
    apply List.filter_eq_self.mpr
    intro x hx
    have : x ∈ (pySplitNl t).filter (E.search p) := by rw [hk]; exact hx
    exact (List.mem_filter.mp this).2

/-! ## Concrete fixtures for the closed evaluations -/

def podA : V1Pod :=
  { metadata := { name := "podA", «namespace» := "ns1" },
    spec := { containers := [{ name := "main" }] },
    status := { container_statuses := some [{ ready := true, state := { waiting := none } }],
                phase := "Running" } }

def podB : V1Pod :=
  { metadata := { name := "podB", «namespace» := "ns1" },
    spec := { containers := [{ name := "main" }] },
    status := { container_statuses := some [{ ready := false, state := { waiting := none } }],
                phase := "Pending" } }

/-- A pod with one container waiting with reason `CrashLoopBackOff` while the
overall phase is `Running` (the first status-derivation example of the spec). -/
def crashWaitingStatus : V1ContainerStatus :=
  { ready := false, state := { waiting := some { reason := "CrashLoopBackOff" } } }

def podCrash : V1Pod :=
  { metadata := { name := "podC", «namespace» := "ns1" },
    spec := { containers := [{ name := "main" }] },
    status := { container_statuses := some [crashWaitingStatus], phase := "Running" } }

/-- A pod with no waiting container and phase `Running`. -/
def podRun : V1Pod :=
  { metadata := { name := "podD", «namespace» := "ns1" },
    spec := { containers := [{ name := "main" }] },
    status := { container_statuses := some [{ ready := true, state := { waiting := none } }],
                phase := "Running" } }

/-- A pod that reports no container statuses at all
(`status.container_statuses is None`), phase `Pending`. -/
def podNone : V1Pod :=
  { metadata := { name := "podE", «namespace» := "ns1" },
    spec := { containers := [{ name := "main" }] },
    status := { container_statuses := none, phase := "Pending" } }

/-- A table in all-namespaces mode holding the single row for `(ns1, podA)`. -/
def stA : TableState :=
  { columns := ["namespace", "name", "ready", "status"],
    rows := [("ns1.podA",
      [("namespace", "ns1"), ("name", "podA"), ("ready", "1/1"), ("status", "Running")])],
    cursor_row := 0, previously_namespaced := false }

/-- A table in all-namespaces mode showing two rows, cursor on row index 1. -/
def stC1 : TableState :=
  { columns := ["namespace", "name", "ready", "status"],
    rows := [("ns1.podA",
      [("namespace", "ns1"), ("name", "podA"), ("ready", "1/1"), ("status", "Running")]),
      ("ns1.podB",
      [("namespace", "ns1"), ("name", "podB"), ("ready", "0/1"), ("status", "Pending")])],
    cursor_row := 0, previously_namespaced := false }

/-- `stC1` with the cursor moved to the second row (index 1). -/
def stC1cur : TableState := { stC1 with cursor_row := 1 }

/-- A namespaced table (namespace column dropped, `previously_namespaced`)
holding the row for `(ns1, podA)` — the state right before a refresh back to
the all-namespaces scope. -/
def stMig : TableState :=
  { columns := ["name", "ready", "status"],
    rows := [("ns1.podA", [("name", "podA"), ("ready", "1/1"), ("status", "Running")])],
    cursor_row := 0, previously_namespaced := true }

def e404 : ApiException :=
  { status := 404, reason := "Not Found", body := "pod not found" }

/-- The table state after reconciling `stA` with the snapshot `[podA, podB]`
in all-namespaces scope. -/
def stW2 : TableState :=
  { columns := ["namespace", "name", "ready", "status"],
    rows := [("ns1.podA",
      [("namespace", "ns1"), ("name", "podA"), ("ready", "1/1"), ("status", "Running")]),
      ("ns1.podB",
      [("namespace", "ns1"), ("name", "podB"), ("ready", "0/1"), ("status", "Pending")])],
    cursor_row := 0, previously_namespaced := false }

def trW2 : Trace :=
  { cleared := false, updatedKeys := ["ns1.podA"], deletedKeys := [],
    insertedKeys := ["ns1.podB"] }

def trW3 : Trace :=
  { cleared := false, updatedKeys := [], deletedKeys := [],
    insertedKeys := ["ns1.podA", "ns1.podB"] }

def app0 : AppState := { «namespace» := none, pod_table := stA }

def logW : LogState :=
  { log_ := "err: a\nok: b\nerr: c", regex := none, content := "err: a\nok: b\nerr: c" }

/-! ## Claim theorems -/

/-- C1: The claim states that after every reconciliation the cursor index
lies within `[0, row_count - 1]`. The code instead computes
`selected = min(selected, len(self.rows))` (kter.py:345), which clamps to
`row_count` rather than `row_count - 1`: refreshing a two-row table whose
cursor sits on row index 1 with a snapshot of one pod restores cursor
index 1, one past the last row index 0. -/
theorem update_pods_cursor_clamp_overflow :
    (update_pods stC1cur (.ok [podA]) none).map
        (fun x => (x.1.cursor_row, x.1.rows.length)) = .ok (1, 1) := by
  decide

/-- C2 counterexample: in the schema-migration reconciliation (all-namespaces
refresh following a namespaced one) the identity `ns1.podA` is present in
both the current table and the new snapshot, yet its row is dropped by
`clear()` and re-added through `add_row` — the trace shows `cleared = true`,
no in-place update, and `ns1.podA` among the inserted keys — contradicting
the claim that such an identity is updated in place, never deleted and
reinserted, and that only net-new identities are inserted. -/
theorem update_pods_migration_reinserts :
    (update_pods stMig (.ok [podA]) none).map
        (fun x => (x.2.cleared, x.2.updatedKeys, x.2.insertedKeys))
      = .ok (true, [], ["ns1.podA"]) := by
  decide

/-- C4: The claim states the derived status is the first waiting reason, else
the pod's phase — including for pods that report no container statuses at
all. The first two parts hold, but a pod whose `container_statuses` is `None`
crashes `pod_status` (iterating `None` raises `TypeError`, modelled as
`none`) instead of returning the phase `"Pending"`; its sibling
`pod_readiness` guards the same case and returns `"0/0"`. -/
theorem pod_status_derivation_and_crash :
    pod_status podCrash = some "CrashLoopBackOff" ∧
    pod_status podRun = some "Running" ∧
    pod_readiness podNone = "0/0" ∧
    pod_status podNone = none := by
  decide

/-- C5 (amended): If the gateway call of a poll tick fails, `update_pods`
raises before touching the table — the previous table state persists
unchanged — but nothing on the poll path catches the error: no notification
is issued and the `ApiException` propagates out of the tick. -/
theorem pollTick_gateway_error_propagates (app : AppState) (e : ApiException) :
    pollTick app (.error e) = .error (.apiException e) := rfl

/-- C5 counterexample: at a concrete state and transport error, the poll tick
does not complete with the error surfaced as a notification — there is no
notify call anywhere on this path — it raises, the `ApiException` escaping
the tick uncaught. -/
theorem pollTick_gateway_error_uncaught :
    pollTick app0 (.error e404) = .error (.apiException e404) ∧
    (pollTick app0 (.error e404)).isOk = false := by
  decide

/-- C6 (amended): an invalid pattern is not treated as "no match": `re.search`
raises `re.error` inside the list comprehension and `update_with_regex` does
not catch it — the method hard-fails, with `self.regex` already set to the
invalid pattern and the displayed content left unchanged. -/
theorem update_with_regex_invalid_raises (E : ReEngine) (st : LogState) (pat : String)
    (h : E.valid pat = false) :
    update_with_regex E st pat = .error { st with regex := some pat } := by
  unfold update_with_regex
  rw [if_neg (by simp [h])]

/-- C6 counterexample: applying the non-compiling pattern `"("` to a concrete
log raises out of `update_with_regex` (no `.ok` result), rather than
behaving as "no match". -/
theorem update_with_regex_invalid_hard_failure :
    update_with_regex substrEngine ⟨"a\nb", none, "a\nb"⟩ "("
        = .error ⟨"a\nb", some "(", "a\nb"⟩ ∧
    (update_with_regex substrEngine ⟨"a\nb", none, "a\nb"⟩ "(").isOk = false := by
  decide

theorem update_with_regex_invalid_raises_witness :
    substrEngine.valid "(" = false ∧
    update_with_regex substrEngine ⟨"x", none, "x"⟩ "(" = .error ⟨"x", some "(", "x"⟩ :=
  ⟨by decide, update_with_regex_invalid_raises substrEngine ⟨"x", none, "x"⟩ "(" (by decide)⟩

/-- C7: for every regex engine, every log text and every valid pattern,
the filter computation is idempotent, the kept lines are a subsequence of
the original lines in original order, `update_with_regex` displays exactly
`applyFilter` of the stored raw text, and clearing the filter restores the
stored raw text verbatim. -/
theorem applyFilter_idempotent_roundtrip (E : ReEngine) (text pat : String)
    (st : LogState) (hv : E.valid pat = true) :
    applyFilter E (applyFilter E text pat) pat = applyFilter E text pat ∧
    List.Sublist ((pySplitNl text).filter (E.search pat)) (pySplitNl text) ∧
    update_with_regex E st pat
      = .ok { st with regex := some pat, content := applyFilter E st.log_ pat } ∧
    update_clear_regex st = { st with regex := none, content := st.log_ } := by
  refine ⟨applyFilter_idem E text pat, List.filter_sublist _, ?_, rfl⟩
  unfold update_with_regex
  rw [if_pos hv]

theorem applyFilter_idempotent_roundtrip_witness :
    substrEngine.valid "err" = true ∧
    (applyFilter substrEngine (applyFilter substrEngine "err: a\nok: b\nerr: c" "err") "err"
        = applyFilter substrEngine "err: a\nok: b\nerr: c" "err" ∧
     List.Sublist ((pySplitNl "err: a\nok: b\nerr: c").filter (substrEngine.search "err"))
       (pySplitNl "err: a\nok: b\nerr: c") ∧
     update_with_regex substrEngine logW "err"
       = .ok { logW with regex := some "err", content := applyFilter substrEngine logW.log_ "err" } ∧
     update_clear_regex logW = { logW with regex := none, content := logW.log_ }) :=
  ⟨by decide,
   applyFilter_idempotent_roundtrip substrEngine "err: a\nok: b\nerr: c" "err" logW
     (by decide)⟩

/-- C8: The claim states that when the container picker's pod lookup fails,
the picker notifies, pops itself, and takes no further action on the missing
descriptor. The handler does notify and pop, but its `except` block neither
returns nor re-raises: control falls through to
`if len(pod.spec.containers) == 1` with `pod` unbound, raising
`UnboundLocalError` — further action on the missing descriptor, leaving the
compose in a broken state. -/
theorem containerSelectCompose_error_continues :
    containerSelectCompose (.error e404)
      = { notifications := [e404], poppedScreen := true,
          outcome := .raisedUnboundLocal } := by
  decide

/-- C9: The claim states the namespace picker dismisses exactly once per
selection. Selecting the all-namespaces option hits
`if prompt == ALL_NAMESPACES_IDENTIFIER: self.dismiss(None)` with no
`return`/`else`, so control falls through to the unconditional
`self.dismiss(prompt)`: two dismiss calls (`None`, then `"all"`) instead of
one. Any other selection dismisses once with the namespace string. -/
theorem namespaceSelect_double_dismiss :
    namespaceSelectDismissCalls "all" = [none, some "all"] ∧
    (namespaceSelectDismissCalls "all").length = 2 ∧
    namespaceSelectDismissCalls "kube-system" = [some "kube-system"] := by
  decide

theorem update_pods_idempotent_witness :
    Wf initialTableState ∧
    update_pods initialTableState (.ok [podA, podB]) none = .ok (stW2, trW3) ∧
    ∃ tr2, update_pods stW2 (.ok [podA, podB]) none = .ok (stW2, tr2) :=
  ⟨by decide, by decide,
   @update_pods_idempotent initialTableState [podA, podB] none stW2 trW3
     (by decide) (by decide)⟩

/-- The spec's concrete scenario for the in-place diff: a table holding
`(ns1, podA)` refreshed with a snapshot holding `(ns1, podA)` and
`(ns1, podB)` gains exactly one new row (`podB`), while `podA`'s row is
updated in place and keeps its identity. -/
theorem update_pods_in_place_diff_witness :
    (¬ ((none : Option String) = none ∧ stA.previously_namespaced = true)) ∧
    (stA.rows.map Prod.fst).Nodup ∧
    update_pods stA (.ok [podA, podB]) none = .ok (stW2, trW2) ∧
    (∃ NR, buildNewRows [podA, podB] (none : Option String).isNone = .ok NR ∧
      trW2.cleared = false ∧
      trW2.updatedKeys = (stA.rows.map Prod.fst).filter (fun k => dictContains NR k) ∧
      trW2.deletedKeys = (stA.rows.map Prod.fst).filter (fun k => !(dictContains NR k)) ∧
      trW2.insertedKeys
        = (dictKeys NR).filter (fun k => !(decide (k ∈ stA.rows.map Prod.fst))) ∧
      ∀ r ∈ stA.rows, ∀ v, dictGet? NR r.1 = some v →
        ∃ cells, (r.1, cells) ∈ stW2.rows ∧
          dictGet? cells "ready" = some (last2 v).1 ∧
          dictGet? cells "status" = some (last2 v).2 ∧
          ∀ c, c ≠ "ready" → c ≠ "status" → c ≠ "namespace" →
            dictGet? cells c = dictGet? r.2 c) ∧
    trW2.insertedKeys = ["ns1.podB"] ∧
    trW2.updatedKeys = ["ns1.podA"] ∧
    trW2.deletedKeys = [] ∧
    "ns1.podA" ∈ stW2.rows.map Prod.fst :=
  ⟨by decide, by decide, by decide,
   @update_pods_in_place_diff stA [podA, podB] none stW2 trW2
     (by decide) (by decide) (by decide),
   by decide, by decide, by decide, by decide⟩
